import Mathlib

/-!
Verification of the `compas_fea` glue layer.

This file gives a shallow embedding of the two source modules

  * `src/compas_fea/fea/opensees/opensees.py`
    (`input_generate`, `launch_process`, `extract_data`), and
  * `src/compas_fea/cad/rhino.py`
    (`add_element_set`, `add_node_set`, `add_nodes_elements_from_layers`),

and proves the frozen claims about them.

Modelling conventions:

  * Python dictionaries are insertion-ordered association lists
    (`getKey` / `setKey` below).
  * Python `float` values are an abstract commutative ring `F`; the
    partial conversion `float(token)` and `math.sqrt` are supplied as an
    oracle bundle `FOps` (floating point itself is not modelled: the
    claims are about the parsing and indexing discipline, not rounding).
  * The file system, the OS and the Rhino document are oracles; every
    fallible Python operation (`open`, `os.mkdir`, `Popen`, list and
    dict indexing, `float()`) is modelled so that its failure raises,
    and `try`/`except` blocks are pattern matches on the raised outcome.
    Where a `try` block mutates state before raising, the error value
    carries the partially mutated state, exactly as CPython leaves the
    mutated objects behind.
  * Python's `str.split(' ')` (split on every single space, keeping
    empty parts) is `pysplit`, defined structurally below.
-/

/-! ### Generic dictionary and list helpers -/

/-- Lookup in an insertion-ordered association list (Python `d[k]`,
returning `none` for a `KeyError`). -/
def getKey [DecidableEq κ] : List (κ × α) → κ → Option α
  | [], _ => none
  | (k', v') :: rest, k => if k' = k then some v' else getKey rest k

/-- Update/insert in an insertion-ordered association list
(Python `d[k] = v`): replaces the binding in place if present,
otherwise appends it. -/
def setKey [DecidableEq κ] : List (κ × α) → κ → α → List (κ × α)
  | [], k, v => [(k, v)]
  | (k', v') :: rest, k, v =>
    if k' = k then (k, v) :: rest else (k', v') :: setKey rest k v

/-- Skeleton of Python's `str.split(' ')` on a character list:
splits at every single space, keeping empty parts. -/
def splitSpAux : List Char → List (List Char)
  | [] => [[]]
  | c :: rest =>
    match splitSpAux rest with
    | [] => [[]]
    | h :: t => if c = ' ' then [] :: h :: t else (c :: h) :: t

/-- Python `line.split(' ')`: split on every single space character,
keeping empty parts (so `''.split(' ') = ['']`). -/
def pysplit (s : String) : List String :=
  (splitSpAux s.toList).map (fun l => String.mk l)

/-- Python slice `l[k::3]` restricted to `k = 0`: every third element. -/
def everyThird : List α → List α
  | [] => []
  | [a] => [a]
  | [a, _] => [a]
  | a :: _ :: _ :: rest => a :: everyThird rest

/-- Python `zip` of three lists followed by a `map`: truncates to the
shortest list. -/
def zip3With (f : α → β → γ → δ) : List α → List β → List γ → List δ
  | a :: as, b :: bs, c :: cs => f a b c :: zip3With f as bs cs
  | _, _, _ => []

/-- Python `[float(t) for t in toks]`: all-or-nothing conversion. -/
def parseAll (pf : String → Option F) : List String → Option (List F)
  | [] => some []
  | t :: ts =>
    match pf t, parseAll pf ts with
    | some v, some vs => some (v :: vs)
    | _, _ => none

/-- Python `{i: l[i] for i in range(nc)}`: a dict keyed by `0..nc-1`,
or an `IndexError` (`none`) if `l` is too short.  The comprehension is
atomic: nothing is assigned when it raises. -/
def mkDict (nc : ℕ) (l : List α) : Option (List (ℕ × α)) :=
  if nc ≤ l.length then some ((l.take nc).enum) else none

/-! ### Data model for `compas_fea.fea.opensees` -/

/-- Oracle bundle for Python float semantics: `pf` is `float(token)`
(`none` = `ValueError`), `sq` is `math.sqrt` (total on the sums of
squares it is applied to). -/
structure FOps (F : Type) where
  pf : String → Option F
  sq : F → F

/-- Oracle for the solver's scratch directory: `files` maps a path to
the `readlines()` result of the file (`none` = any `open`/read error,
in particular a missing file), and `jsonTruss` maps a path to
`json.load(f)['truss_ekeys']` (`none` = any error on that file). -/
structure FS where
  files : String → Option (List String)
  jsonTruss : String → Option (List ℕ)

/-- One value of the `structure.elements` dict: only the element type
name (`element.__name__` in the source) is consulted by this module. -/
structure OSElement where
  etype : String

/-- A reference to loaded nodes inside `PointLoad.nodes`: either a set
name (a Python `str`) or an explicit list of node keys. -/
inductive NodeSel
  | sname (s : String)
  | nlist (l : List ℕ)

/-- One value of the `structure.loads` dict, as used by `extract_data`:
`lname` is `load.__name__`, `components` the components dict, and
`lnodes` is `load.nodes`, which is either a bare string or a list. -/
structure OSLoad (F : Type) where
  lname : String
  components : List (String × F)
  lnodes : Sum String (List NodeSel)

/-- Nodal results dict: field key (such as `ux`) to a dict from node
key to value. -/
def NodalDict (F : Type) : Type := List (String × List (ℕ × F))

/-- Element results dict: field key (such as `sf1`) to a dict from
element key to the value stored under its `ip` entry. -/
def ElemDict (F : Type) : Type := List (String × List (ℕ × F))

/-- The two-key dict `{'nodal': ..., 'element': ...}` that
`extract_data` assigns to `structure.results[step]`. -/
structure StepResults (F : Type) where
  nodal : NodalDict F
  element : ElemDict F

/-- The slice of the `Structure` object read by the opensees module:
`name`, `path`, `node_count()`, the element values, `steps_order`, the
per-step load-key lists (`steps[k].loads`), the loads dict, the node
sets (`sets[k].selection`) and the results dict. -/
structure OSStructure (F : Type) where
  name : String
  path : String
  node_count : ℕ
  elements : List OSElement
  steps_order : List String
  steps : List (String × List String)
  loads : List (String × OSLoad F)
  sets : List (String × List ℕ)
  results : List (String × StepResults F)

/-- The scratch directory `'{0}{1}/'.format(path, name)`. -/
def OSStructure.temp (s : OSStructure F) : String := s.path ++ s.name ++ "/"

/-! ### `extract_data` -/

/-- Python `{i: 0 for i in nodes}` with `nodes = range(node_count)`. -/
def zeroDict (F : Type) [CommRing F] (nc : ℕ) : List (ℕ × F) :=
  (List.range nc).map (fun i => (i, (0 : F)))

/-- Lines 167-169 of `opensees.py`: for `i` in `'xyz'`, initialise
`nodal['cf'+i]` and `nodal['cm'+i]` to all-zero dicts. -/
def initLoadKeys (F : Type) [CommRing F] (nc : ℕ) : NodalDict F :=
  ["x", "y", "z"].foldl
    (fun n i => setKey (setKey n ("cf" ++ i) (zeroDict F nc)) ("cm" ++ i) (zeroDict F nc)) []

/-- One `nodal[key][ni] += v` statement: any missing dict key raises
(`Except.error` carries the state unchanged, as the failed statement
mutated nothing). -/
def updOne [CommRing F] (nodal : NodalDict F) (key : String) (ni : ℕ) (v : Option F) :
    Except (NodalDict F) (NodalDict F) :=
  match getKey nodal key with
  | none => .error nodal
  | some d =>
    match getKey d ni with
    | none => .error nodal
    | some old =>
      match v with
      | none => .error nodal
      | some x => .ok (setKey nodal key (setKey d ni (old + x)))

/-- The inner `for i in 'xyz'` loop of the loads section: add
`com[i]` into `nodal['cf'+i][ni]` and `com[i+i]` into
`nodal['cm'+i][ni]`. -/
def loadXYZ [CommRing F] (com : List (String × F)) (ni : ℕ) :
    List String → NodalDict F → Except (NodalDict F) (NodalDict F)
  | [], n => .ok n
  | i :: rest, n =>
    match updOne n ("cf" ++ i) ni (getKey com i) with
    | .error n' => .error n'
    | .ok n' =>
      match updOne n' ("cm" ++ i) ni (getKey com (i ++ i)) with
      | .error n'' => .error n''
      | .ok n'' => loadXYZ com ni rest n''

/-- The `for ni in ns` loop of the loads section. -/
def loadNodes [CommRing F] (com : List (String × F)) :
    List ℕ → NodalDict F → Except (NodalDict F) (NodalDict F)
  | [], n => .ok n
  | ni :: rest, n =>
    match loadXYZ com ni ["x", "y", "z"] n with
    | .error n' => .error n'
    | .ok n' => loadNodes com rest n'

/-- The `for node in nn` loop: a string member is resolved through
`structure.sets[node].selection` (`KeyError` raises), a list member is
used directly. -/
def loadRefs [CommRing F] (s : OSStructure F) (com : List (String × F)) :
    List NodeSel → NodalDict F → Except (NodalDict F) (NodalDict F)
  | [], n => .ok n
  | NodeSel.sname nm :: rest, n =>
    match getKey s.sets nm with
    | none => .error n
    | some sel =>
      match loadNodes com sel n with
      | .error n' => .error n'
      | .ok n' => loadRefs s com rest n'
  | NodeSel.nlist l :: rest, n =>
    match loadNodes com l n with
    | .error n' => .error n'
    | .ok n' => loadRefs s com rest n'

/-- The `for k in structure.steps[...].loads` loop (lines 171-188):
look up each load; `PointLoad`s contribute their components, a bare
string `load.nodes` is wrapped into a one-element list; other load
classes are skipped. -/
def loadsPhase [CommRing F] (s : OSStructure F) :
    List String → NodalDict F → Except (NodalDict F) (NodalDict F)
  | [], n => .ok n
  | k :: rest, n =>
    match getKey s.loads k with
    | none => .error n
    | some ld =>
      if ld.lname = "PointLoad" then
        let nn := match ld.lnodes with
          | .inl nm => [NodeSel.sname nm]
          | .inr l => l
        match loadRefs s ld.components nn n with
        | .error n' => .error n'
        | .ok n' => loadsPhase s rest n'
      else loadsPhase s rest n

/-- The nodal-field `try` block (lines 200-214 of `opensees.py`): read
the `.out` file, take its last line, split on single spaces, drop the
first token, convert to floats, slice into x/y/z strides, build the
magnitude list, then assign the four per-node dicts in order.  On any
raise the error value carries the dicts assigned so far; the following
`except` swallows it. -/
def nodalAttempt [CommRing F] (ops : FOps F) (fs : FS) (fname : String) (nc : ℕ)
    (field : String) (nodal : NodalDict F) : Except (NodalDict F) (NodalDict F) :=
  match fs.files fname with
  | none => .error nodal
  | some lines =>
    match lines.getLast? with
    | none => .error nodal
    | some last =>
      match parseAll ops.pf ((pysplit last).drop 1) with
      | none => .error nodal
      | some data =>
        let dofx := everyThird data
        let dofy := everyThird (data.drop 1)
        let dofz := everyThird (data.drop 2)
        let dofm := zip3With (fun u v w => ops.sq (u * u + v * v + w * w)) dofx dofy dofz
        match mkDict nc dofx with
        | none => .error nodal
        | some dx =>
          let n1 := setKey nodal (field ++ "x") dx
          match mkDict nc dofy with
          | none => .error n1
          | some dy =>
            let n2 := setKey n1 (field ++ "y") dy
            match mkDict nc dofz with
            | none => .error n2
            | some dz =>
              let n3 := setKey n2 (field ++ "z") dz
              match mkDict nc dofm with
              | none => .error n3
              | some dm => .ok (setKey n3 (field ++ "m") dm)

/-- Python `for ekey, sf1 in zip(truss_ekeys, data): element['sf1'][ekey] = {'ip': sf1}`. -/
def mkSf1 [CommRing F] : List ℕ → List F → List (ℕ × F) → List (ℕ × F)
  | ekey :: ekeys, v :: vs, d => mkSf1 ekeys vs (setKey d ekey v)
  | _, _, d => d

/-- The `sf` `try` block (lines 228-242): `element['sf1'] = {}` runs
first, so it persists even when the subsequent reads raise; then the
truss `.out` file and `truss_ekeys.json` are read and zipped.  Returns
the element dict (partial state on error) and the list of files whose
`open` was attempted. -/
def sfAttempt [CommRing F] (ops : FOps F) (fs : FS) (fnameOut fnameJson : String)
    (element : ElemDict F) : Except (ElemDict F) (ElemDict F) × List String :=
  let e1 := setKey element "sf1" []
  match fs.files fnameOut with
  | none => (.error e1, [fnameOut])
  | some lines =>
    match lines.getLast? with
    | none => (.error e1, [fnameOut])
    | some last =>
      match parseAll ops.pf ((pysplit last).drop 1) with
      | none => (.error e1, [fnameOut])
      | some data =>
        match fs.jsonTruss fnameJson with
        | none => (.error e1, [fnameOut, fnameJson])
        | some truss_ekeys =>
          (.ok (setKey e1 "sf1" (mkSf1 truss_ekeys data [])), [fnameOut, fnameJson])

/-- The nodal field names of the field loop. -/
def nodalFields : List String := ["u", "ur", "rf", "rm"]

/-- Success message `'***** {0}.out data loaded *****'` for `file = step_field`. -/
def loadedMsg (step field : String) : String :=
  "***** " ++ step ++ "_" ++ field ++ ".out data loaded *****"

/-- Failure message of the nodal `except` branch. -/
def nodalFailMsg (step field : String) : String :=
  "***** " ++ step ++ "_" ++ field ++ ".out data not loaded/saved"

/-- Failure message of the truss `except` branch. -/
def sfFailMsg : String := "***** No truss element data loaded"

/-- Mutable state threaded through the `for field in fields` loop:
the two result dicts, the printed lines and the opened file names. -/
structure PState (F : Type) where
  nodal : NodalDict F
  element : ElemDict F
  plog : List String
  accessed : List String

/-- One iteration of the `for field in fields` loop (lines 192-246):
nodal fields and `'sf'` run their `try` blocks (the `except` arms print
the corresponding failure message and fall through); any other field
matches no branch and is skipped with no file access and no output. -/
def processField [CommRing F] (ops : FOps F) (fs : FS) (temp step : String) (nc : ℕ)
    (st : PState F) (field : String) : PState F :=
  if field ∈ nodalFields then
    let fname := temp ++ step ++ "_" ++ field ++ ".out"
    match nodalAttempt ops fs fname nc field st.nodal with
    | .ok n =>
      { st with nodal := n, plog := st.plog ++ [loadedMsg step field],
                accessed := st.accessed ++ [fname] }
    | .error n =>
      { st with nodal := n, plog := st.plog ++ [nodalFailMsg step field],
                accessed := st.accessed ++ [fname] }
  else if field ∈ ["sf"] then
    let fnameOut := temp ++ step ++ "_" ++ field ++ "_truss.out"
    let fnameJson := temp ++ "truss_ekeys.json"
    match sfAttempt ops fs fnameOut fnameJson st.element with
    | (.ok e, acc) =>
      { st with element := e, plog := st.plog ++ [loadedMsg step field],
                accessed := st.accessed ++ acc }
    | (.error e, acc) =>
      { st with element := e, plog := st.plog ++ [sfFailMsg],
                accessed := st.accessed ++ acc }
  else st

/-- Outcome of a call to `extract_data`: `err` is the uncaught
exception, if any (`structure.results` keeps all mutations made before
the raise, as in CPython); `plog` the printed lines; `accessed` the
file names whose `open` was attempted. -/
structure ExtractOut (F : Type) where
  err : Option String
  results : List (String × StepResults F)
  plog : List String
  accessed : List String

/-- `extract_data(structure, fields)` (lines 135-285 of `opensees.py`).
`structure.steps_order[1]` raises before anything is touched; then
`structure.results[step]` is rebound to a fresh two-key dict, the
`cf`/`cm` dicts are initialised, the loads section runs (uncaught
exceptions propagate), and finally each requested field is processed
with its exception-swallowing `try` block.  The closing timing print is
elided (its text is wall-clock dependent). -/
def extract_data [CommRing F] (ops : FOps F) (s : OSStructure F) (fields : List String)
    (fs : FS) : ExtractOut F :=
  match s.steps_order[1]? with
  | none => ⟨some "IndexError: steps_order[1]", s.results, [], []⟩
  | some step =>
    let nc := s.node_count
    let nodal0 := initLoadKeys F nc
    match getKey s.steps step with
    | none => ⟨some "KeyError: structure.steps", setKey s.results step ⟨nodal0, []⟩, [], []⟩
    | some loadKeys =>
      match loadsPhase s loadKeys nodal0 with
      | .error n =>
        ⟨some "exception in loads section", setKey s.results step ⟨n, []⟩, [], []⟩
      | .ok n =>
        let st0 : PState F := ⟨n, [], [], []⟩
        let stF := fields.foldl (processField ops fs s.temp step nc) st0
        ⟨none, setKey s.results step ⟨stF.nodal, stF.element⟩, stF.plog, stF.accessed⟩

/-! ### `input_generate` -/

/-- The element types that keep `ndof = 3` in `input_generate`. -/
def lineElementTypes : List String :=
  ["TrussElement", "TieElement", "StrutElement", "SpringElement"]

/-- Lines 52-56 of `opensees.py`: `ndof` starts at 3 and is set to 6 at
the first element (in dict-value order) whose type is outside
`lineElementTypes`, with a `break`. -/
def computeNdof : List OSElement → ℕ
  | [] => 3
  | e :: rest => if e.etype ∈ lineElementTypes then computeNdof rest else 6

/-- One `writer.write_*` call of the `with Writer(...)` block; the text
each call emits is solver syntax owned by the (external) `Writer` class
and is not modelled, only the call sequence is. -/
inductive WSection
  | heading
  | nodes
  | boundary_conditions
  | materials
  | elements
  | steps
deriving DecidableEq

/-- Observable outcome of `input_generate`: the file it creates, the
`ndof` passed to the `Writer`, and the `write_*` calls in order. -/
structure InputDeck where
  filename : String
  ndof : ℕ
  sections : List WSection

/-- `input_generate(structure, fields, output)` (lines 31-67). -/
def input_generate (s : OSStructure F) : InputDeck :=
  { filename := s.path ++ s.name ++ ".tcl"
    ndof := computeNdof s.elements
    sections := [WSection.heading, WSection.nodes, WSection.boundary_conditions,
                 WSection.materials, WSection.elements, WSection.steps] }

/-! ### `launch_process` -/

/-- Side effects of `launch_process`, in program order. -/
inductive OSEffect
  | stat (p : String)
  | mkdir (p : String)
  | popen (cmd cwd : String)
deriving DecidableEq

/-- Oracle for the operating system: `dirExists p` is whether
`os.stat(p)` succeeds, `mkdirOk p` whether `os.mkdir(p)` succeeds (a
raise there escapes to the outer `except`), and `popenRes cmd cwd` is
`none` when `Popen` raises, otherwise the `readline()` results (the
stream yields `''` at end of file), the `communicate()` stdout
remainder and the stderr text.  `tocs` renders the wall-clock time. -/
structure OSEnv where
  dirExists : String → Bool
  mkdirOk : String → Bool
  popenRes : String → String → Option (List String × String × String)
  tocs : String

/-- Observable outcome of `launch_process`: printed lines and the side
effects issued. -/
structure RunOut where
  rlog : List String
  fx : List OSEffect

/-- Python `if not exe: exe = 'C:/OpenSees.exe'`: `None` and the empty
string are falsy. -/
def resolveExe : Option String → String
  | none => "C:/OpenSees.exe"
  | some e => if e = "" then "C:/OpenSees.exe" else e

/-- The message printed by the outer `except` of `launch_process`. -/
def failMsg : String := "\n***** OpenSees analysis failed"

/-- The `while True` read loop (lines 110-118): `readline()` until a
falsy line, stripping each line and printing it only when `output` is
set; returns the printed lines. -/
def readLoop (output : Bool) : List String → List String
  | [] => []
  | l :: rest =>
    if l = "" then []
    else (if output then [l.trim] else []) ++ readLoop output rest

/-- `launch_process(structure, exe, output)` (lines 70-132): ensure the
scratch directory exists (`os.stat`, on failure `os.mkdir`), launch
`'{exe} {path}{name}.tcl'` with `cwd` set to the scratch directory,
scrape stdout, and print the timing line; the whole body is wrapped in
a catch-all `except` that prints only `failMsg`, so the call never
propagates an exception (it always returns `None`). -/
def launch_process (env : OSEnv) (s : OSStructure F) (exe : Option String)
    (output : Bool) : RunOut :=
  let temp := s.path ++ s.name ++ "/"
  let afterDir : List OSEffect → RunOut := fun fx =>
    let cmd := resolveExe exe ++ " " ++ s.path ++ s.name ++ ".tcl"
    let fx' := fx ++ [OSEffect.popen cmd temp]
    match env.popenRes cmd temp with
    | none => ⟨[failMsg], fx'⟩
    | some (ls, so, se) =>
      ⟨["Executing command  " ++ cmd] ++ readLoop output ls
         ++ (if output then [so, se] else [])
         ++ ["\n***** OpenSees analysis time : " ++ env.tocs ++ " s *****"], fx'⟩
  if env.dirExists temp then afterDir [OSEffect.stat temp]
  else if env.mkdirOk temp then afterDir [OSEffect.stat temp, OSEffect.mkdir temp]
  else ⟨[failMsg], [OSEffect.stat temp, OSEffect.mkdir temp]⟩

/-! ### Data model for `compas_fea.cad.rhino`

The `Structure` class itself lives outside the provided sources (only
`rhino.py`, its caller, is given), so its node/element/set primitives
are modelled from the spec's description of the data model; the
`rhino.py` functions themselves are translated from the source.  A
Python node key is an `int` or (from a failed `check_node_exists`)
`None`, so node-key-valued expressions have type `Option ℕ`. -/

/-- One element record of the structural model. -/
structure RElement where
  enodes : List (Option ℕ)
  etype : String
deriving DecidableEq

/-- One named set of the structural model. -/
structure RSet where
  stype : String
  selection : List (Option ℕ)
  explode : Bool
deriving DecidableEq

/-- Modelled from the spec: the neutral in-memory structural model
("nodes, elements, ... boundary conditions, analysis steps") as far as
the `rhino.py` functions touch it.  Node keys are list positions. -/
structure RStructure (P : Type) where
  rnodes : List P
  relements : List RElement
  rsets : List (String × RSet)

variable {P : Type} [DecidableEq P]

/-- First position of an element in a list, if any. -/
def idxOf? [DecidableEq α] : List α → α → Option ℕ
  | [], _ => none
  | q :: rest, p => if q = p then some 0 else (idxOf? rest p).map (· + 1)

/-- Modelled from the spec: `Structure.check_node_exists(xyz)` returns
the key of the node with the given coordinates, or `None`. -/
def check_node_exists (s : RStructure P) (p : P) : Option ℕ :=
  idxOf? s.rnodes p

/-- Modelled from the spec: `Structure.add_node(xyz)` returns the key
of the existing node with those coordinates, or appends a new node and
returns its key. -/
def add_node (s : RStructure P) (p : P) : RStructure P × ℕ :=
  match check_node_exists s p with
  | some k => (s, k)
  | none => ({ s with rnodes := s.rnodes ++ [p] }, s.rnodes.length)

/-- Modelled from the spec: `Structure.add_element(nodes, type, ...)`
appends an element and returns its key (the acoustic/thermal/axes
metadata is not consulted by any claim and is not tracked). -/
def add_element (s : RStructure P) (ns : List (Option ℕ)) (t : String) :
    RStructure P × ℕ :=
  ({ s with relements := s.relements ++ [⟨ns, t⟩] }, s.relements.length)

/-- Two node-key lists describe the same element when they agree as
multisets. -/
def sameNodes (a b : List (Option ℕ)) : Bool :=
  a.length = b.length && a.all (fun x => a.count x = b.count x)

/-- Modelled from the spec: `Structure.check_element_exists(nodes)`
returns the key of an element on the given nodes, or `None`. -/
def check_element_exists (s : RStructure P) (ns : List (Option ℕ)) : Option ℕ :=
  s.relements.findIdx? (fun e => sameNodes e.enodes ns)

/-- Modelled from the spec: `Structure.add_set(name, type, selection,
explode)` records the set under its name. -/
def add_set (s : RStructure P) (name ty : String) (sel : List (Option ℕ))
    (ex : Bool) : RStructure P :=
  { s with rsets := setKey s.rsets name ⟨ty, sel, ex⟩ }

/-- Oracle for the Rhino document (`rhinoscriptsyntax`): layer
contents, object classification, object names and geometry.  Mesh
faces come from `rs.MeshFaceVertices` as quadruples of vertex indices
(a triangle repeats its last vertex). -/
structure CadDoc (P : Type) where
  objectsByLayer : String → List ℕ
  isCurve : ℕ → Bool
  isMesh : ℕ → Bool
  objectName : ℕ → String
  curveStart : ℕ → P
  curveEnd : ℕ → P
  pointCoordinates : ℕ → P
  meshVertices : ℕ → List P
  meshFaces : ℕ → List (ℕ × ℕ × ℕ × ℕ)

/-- Python `'solid' in name`. -/
def containsSolid (nm : String) : Bool := (nm.splitOn "solid").length ≠ 1

/-- Python truthiness of an optional string argument (`None` and `''`
are falsy). -/
def truthy : Option String → Bool
  | none => false
  | some x => x ≠ ""

/-- The list comprehension `[structure.check_node_exists(vertices[i])
for i in face]`: `none` is an uncaught `IndexError` on `vertices`;
the comprehension is atomic. -/
def faceNodes (s : RStructure P) (verts : List P) (face : ℕ × ℕ × ℕ × ℕ) :
    Option (Option ℕ × Option ℕ × Option ℕ × Option ℕ) :=
  match verts[face.1]?, verts[face.2.1]?, verts[face.2.2.1]?, verts[face.2.2.2]? with
  | some pa, some pb, some pc, some pd =>
    some (check_node_exists s pa, check_node_exists s pb,
          check_node_exists s pc, check_node_exists s pd)
  | _, _, _, _ => none

/-! ### `add_element_set` and `add_node_set` -/

/-- The `for face in faces` loop of `add_element_set` (lines 99-105 of
`rhino.py`): a face whose third and fourth node keys coincide is looked
up as a triangle (`nodes[:-1]`); an element key found is appended to
the selection, `None` results are skipped. -/
def elemSetFaces (s : RStructure P) (verts : List P) :
    List (ℕ × ℕ × ℕ × ℕ) → List (Option ℕ) → Option (List (Option ℕ))
  | [], acc => some acc
  | face :: rest, acc =>
    match faceNodes s verts face with
    | none => none
    | some (a, b, c, d) =>
      let ns := if c = d then [a, b, c] else [a, b, c, d]
      let element := check_element_exists s ns
      if element = none then elemSetFaces s verts rest acc
      else elemSetFaces s verts rest (acc ++ [element])

/-- One `for guid in guids` iteration of `add_element_set` (lines
79-105): the curve test and the mesh test are independent `if`s; a
mesh whose object name contains `'solid'` is looked up on all its
vertices, any other mesh face by face. -/
def elemSetGuid (doc : CadDoc P) (s : RStructure P) (acc : List (Option ℕ))
    (guid : ℕ) : Option (List (Option ℕ)) :=
  let acc1 :=
    if doc.isCurve guid then
      let sp := check_node_exists s (doc.curveStart guid)
      let ep := check_node_exists s (doc.curveEnd guid)
      let element := check_element_exists s [sp, ep]
      if element = none then acc else acc ++ [element]
    else acc
  if doc.isMesh guid then
    let verts := doc.meshVertices guid
    if containsSolid (doc.objectName guid) then
      let ns := verts.map (check_node_exists s)
      let element := check_element_exists s ns
      some (if element = none then acc1 else acc1 ++ [element])
    else elemSetFaces s verts (doc.meshFaces guid) acc1
  else some acc1

/-- The guid loop of `add_element_set`. -/
def elemSetGuids (doc : CadDoc P) (s : RStructure P) :
    List ℕ → List (Option ℕ) → Option (List (Option ℕ))
  | [], acc => some acc
  | g :: rest, acc =>
    match elemSetGuid doc s acc g with
    | none => none
    | some acc' => elemSetGuids doc s rest acc'

/-- `add_element_set(structure, guids, name, explode)` (lines 63-107):
collect element keys from curve and mesh guids, then record them with
`structure.add_set`; `none` is an uncaught `IndexError` from a mesh
face.  The structure is only modified by the final `add_set`. -/
def add_element_set (doc : CadDoc P) (s : RStructure P) (guids : List ℕ)
    (name : String) (explode : Bool) : Option (RStructure P) :=
  (elemSetGuids doc s guids []).map (fun sel => add_set s name "element" sel explode)

/-- `add_node_set(structure, guids, name, explode)` (lines 110-130):
collect the node keys of the guids' point coordinates, skipping `None`
results, then record them with `structure.add_set`. -/
def add_node_set (doc : CadDoc P) (s : RStructure P) (guids : List ℕ)
    (name : String) (explode : Bool) : RStructure P :=
  let sel := guids.foldl
    (fun acc g =>
      let node := check_node_exists s (doc.pointCoordinates g)
      if node = none then acc else acc ++ [node]) []
  add_set s name "node" sel explode

/-! ### `add_nodes_elements_from_layers` -/

/-- The solid mesh element types of `add_nodes_elements_from_layers`. -/
def solidTypes : List String :=
  ["HexahedronElement", "TetrahedronElement", "SolidElement", "PentahedronElement"]

/-- The curve branch (lines 156-166): add the curve's start and end
points as nodes and one `line_type` element on the two keys (the
`ObjectName` json axes lookup only feeds the untracked `axes`
metadata). -/
def lineBranch (doc : CadDoc P) (s : RStructure P) (guid : ℕ) (lt : String) :
    RStructure P :=
  let r1 := add_node s (doc.curveStart guid)
  let r2 := add_node r1.1 (doc.curveEnd guid)
  (add_element r2.1 [some r1.2, some r2.2] lt).1

/-- Python `nodes = [structure.add_node(vertex) for vertex in vertices]`. -/
def addNodesList (s : RStructure P) : List P → RStructure P × List ℕ
  | [] => (s, [])
  | p :: rest =>
    let r1 := add_node s p
    let r2 := addNodesList r1.1 rest
    (r2.1, r1.2 :: r2.2)

/-- The `for face in faces` loop of the non-solid mesh branch (lines
176-180): look up each face's node keys, drop the last when the last
two coincide (`del nodes[-1]`), and add a `mesh_type` element; `none`
is an uncaught `IndexError`. -/
def meshFacesAdd (verts : List P) (mt : String) :
    List (ℕ × ℕ × ℕ × ℕ) → RStructure P → Option (RStructure P)
  | [], s => some s
  | face :: rest, s =>
    match faceNodes s verts face with
    | none => none
    | some (a, b, c, d) =>
      let ns := if d = c then [a, b, c] else [a, b, c, d]
      meshFacesAdd verts mt rest (add_element s ns mt).1

/-- The mesh branch (lines 168-180): add every vertex as a node, then
either one solid element on all the vertex keys or one element per
face. -/
def meshBranch (doc : CadDoc P) (s : RStructure P) (guid : ℕ) (mt : String) :
    Option (RStructure P) :=
  let verts := doc.meshVertices guid
  let r := addNodesList s verts
  if mt ∈ solidTypes then some (add_element r.1 (r.2.map some) mt).1
  else meshFacesAdd verts mt (doc.meshFaces guid) r.1

/-- One guid of `add_nodes_elements_from_layers`: `if line_type and
rs.IsCurve(guid): ... elif mesh_type and rs.IsMesh(guid): ...`. -/
def procGuid (doc : CadDoc P) (lt mt : Option String) (s : RStructure P)
    (guid : ℕ) : Option (RStructure P) :=
  if truthy lt && doc.isCurve guid then
    some (lineBranch doc s guid (lt.getD ""))
  else if truthy mt && doc.isMesh guid then
    meshBranch doc s guid (mt.getD "")
  else some s

/-- The guid loop of `add_nodes_elements_from_layers`. -/
def procGuids (doc : CadDoc P) (lt mt : Option String) :
    List ℕ → RStructure P → Option (RStructure P)
  | [], s => some s
  | g :: rest, s =>
    match procGuid doc lt mt s g with
    | none => none
    | some s' => procGuids doc lt mt rest s'

/-- `add_nodes_elements_from_layers(structure, layers, line_type,
mesh_type, ...)` (lines 133-180), with `layers` already normalised to a
list (the source wraps a bare string). -/
def add_nodes_elements_from_layers (doc : CadDoc P) (s : RStructure P)
    (layers : List String) (lt mt : Option String) : Option (RStructure P) :=
  match layers with
  | [] => some s
  | layer :: rest =>
    match procGuids doc lt mt (doc.objectsByLayer layer) s with
    | none => none
    | some s' => add_nodes_elements_from_layers doc s' rest lt mt

/-! ### Derived definitions used by the claim statements -/

/-- Whether an `Except` computation raised. -/
def isErr : Except α β → Bool
  | .error _ => true
  | .ok _ => false

/-- Whether the `try` block of a requested field raises, for the given
file system (independent of the accumulated result dicts; fields that
match no branch of the loop never raise). -/
def fieldFails [CommRing F] (ops : FOps F) (fs : FS) (temp step : String) (nc : ℕ)
    (field : String) : Bool :=
  if field ∈ nodalFields then
    isErr (nodalAttempt ops fs (temp ++ step ++ "_" ++ field ++ ".out") nc field [])
  else if field ∈ ["sf"] then
    isErr (sfAttempt ops fs (temp ++ step ++ "_" ++ field ++ "_truss.out")
      (temp ++ "truss_ekeys.json") []).1
  else false

/-- The four per-node result keys a nodal field writes. -/
def fieldKeys (field : String) : List String :=
  [field ++ "x", field ++ "y", field ++ "z", field ++ "m"]

/-- A per-node dict defined on every node key below `nc`. -/
def fullDict (nc : ℕ) (d : List (ℕ × F)) : Prop :=
  ∀ i < nc, (getKey d i).isSome = true

/-- Concrete structure used by the witnesses on the opensees side. -/
def sampleStruct : OSStructure ℤ :=
  { name := "frame"
    path := "C:/Temp/"
    node_count := 1
    elements := [⟨"ShellElement"⟩]
    steps_order := ["step_bc", "step_load"]
    steps := [("step_load", [])]
    loads := []
    sets := []
    results := [("old_step", ⟨[], []⟩)] }

/-- The result dict left behind by a `try` block, whether it completed
or raised (Python mutations survive the `except`). -/
def exVal : Except α α → α
  | .error a => a
  | .ok a => a

/-- A nodal dict holding all four fully populated per-node dicts of a
field. -/
def fullKeysP [CommRing F] (nc : ℕ) (field : String) (n : NodalDict F) : Prop :=
  ∀ c ∈ (["x", "y", "z", "m"] : List String),
    ∃ d, getKey n (field ++ c) = some d ∧ fullDict nc d

/-- Concrete file system used by the witnesses: the displacement file
of `sampleStruct` has a header line and one data line of three
components for the single node. -/
def sampleFS : FS :=
  { files := fun p =>
      if p = "C:/Temp/frame/step_load_u.out" then some ["header", "0.0 1 2 3"] else none
    jsonTruss := fun _ => none }

/-- Concrete float oracle used by the witnesses. -/
def sampleOps : FOps ℤ :=
  { pf := fun t =>
      if t = "1" then some 1 else if t = "2" then some 2 else
      if t = "3" then some 3 else none
    sq := id }

/-- Concrete Rhino document used by the witnesses: layer `"L"` holds a
curve (guid 1) and a one-triangle mesh (guid 2, quadruple face with the
last vertex repeated). -/
def sampleDoc : CadDoc ℕ :=
  { objectsByLayer := fun nm => if nm = "L" then [1, 2] else []
    isCurve := fun g => g = 1
    isMesh := fun g => g = 2
    objectName := fun _ => "obj"
    curveStart := fun _ => 10
    curveEnd := fun _ => 11
    pointCoordinates := fun _ => 0
    meshVertices := fun g => if g = 2 then [20, 21, 22] else []
    meshFaces := fun g => if g = 2 then [(0, 1, 2, 2)] else [] }

/-- Concrete structural model used by the witnesses. -/
def sampleRS : RStructure ℕ :=
  { rnodes := [0, 7]
    relements := [⟨[some 0, some 1], "BeamElement"⟩]
    rsets := [] }

/-! ### Claim theorems: `add_nodes_elements_from_layers` -/

/-- Monotone growth of the structural model: nodes are only appended
(so keys are stable), elements are never removed. -/
def grows (s s' : RStructure P) : Prop :=
  (∃ t, s'.rnodes = s.rnodes ++ t) ∧ ∀ e ∈ s.relements, e ∈ s'.relements

/-- What the curve branch guarantees for a curve guid: its endpoints
are nodes and one `line_type` element joins their two keys. -/
def lineProp (doc : CadDoc P) (guid : ℕ) (l : String) (s' : RStructure P) : Prop :=
  ∃ a b, check_node_exists s' (doc.curveStart guid) = some a ∧
    check_node_exists s' (doc.curveEnd guid) = some b ∧
    (⟨[some a, some b], l⟩ : RElement) ∈ s'.relements

/-- What the non-solid mesh branch guarantees for one face: its four
vertex indices resolve, their nodes exist, and the face was added as a
3-node element when the last two keys coincide and as a 4-node element
otherwise. -/
def faceProp (verts : List P) (mt : String) (face : ℕ × ℕ × ℕ × ℕ)
    (s' : RStructure P) : Prop :=
  ∃ pa pb pc pd, verts[face.1]? = some pa ∧ verts[face.2.1]? = some pb ∧
    verts[face.2.2.1]? = some pc ∧ verts[face.2.2.2]? = some pd ∧
    ∃ ka kb kc kd : ℕ, check_node_exists s' pa = some ka ∧
      check_node_exists s' pb = some kb ∧ check_node_exists s' pc = some kc ∧
      check_node_exists s' pd = some kd ∧
      (kd = kc → (⟨[some ka, some kb, some kc], mt⟩ : RElement) ∈ s'.relements) ∧
      (kd ≠ kc → (⟨[some ka, some kb, some kc, some kd], mt⟩ : RElement) ∈ s'.relements)

/-- The concrete result of running `add_nodes_elements_from_layers` on
the sample document (used by the witness). -/
def sampleRun : RStructure ℕ :=
  (add_nodes_elements_from_layers sampleDoc ⟨[], [], []⟩ ["L"] (some "BeamElement")
    (some "ShellElement")).getD ⟨[], [], []⟩

/-! ### Theorems -/

theorem getKey_setKey_self [DecidableEq κ] (d : List (κ × α)) (k : κ) (v : α) :
    getKey (setKey d k v) k = some v := by
  induction d with
  | nil => simp [setKey, getKey]
  | cons hd tl ih =>
    obtain ⟨k', v'⟩ := hd
    by_cases h : k' = k
    · simp [setKey, getKey, h]
    · simp [setKey, getKey, h, ih]

theorem getKey_setKey_ne [DecidableEq κ] (d : List (κ × α)) (k k' : κ) (v : α)
    (h : k' ≠ k) : getKey (setKey d k v) k' = getKey d k' := by
  induction d with
  | nil =>
    simp only [setKey, getKey]
    rw [if_neg (fun hh => h hh.symm)]
  | cons hd tl ih =>
    obtain ⟨k'', v''⟩ := hd
    by_cases hk : k'' = k
    · subst hk
      simp only [setKey, if_pos rfl, getKey]
      rw [if_neg (fun hh => h hh.symm), if_neg (fun hh => h hh.symm)]
    · simp only [setKey, if_neg hk, getKey]
      by_cases hk' : k'' = k'
      · simp [hk']
      · simp [hk', ih]

theorem everyThird_getElem? (l : List α) (i : ℕ) :
    (everyThird l)[i]? = l[3 * i]? := by
  induction l using everyThird.induct generalizing i with
  | case1 => simp [everyThird]
  | case2 a =>
    cases i with
    | zero => simp [everyThird]
    | succ j =>
      have h3 : 3 * (j + 1) = 3 * j + 1 + 1 + 1 := by ring
      simp [everyThird, h3]
  | case3 a b =>
    cases i with
    | zero => simp [everyThird]
    | succ j =>
      have h3 : 3 * (j + 1) = 3 * j + 1 + 1 + 1 := by ring
      simp [everyThird, h3]
  | case4 a b c rest ih =>
    cases i with
    | zero => simp [everyThird]
    | succ j =>
      have h3 : 3 * (j + 1) = 3 * j + 1 + 1 + 1 := by ring
      simp only [everyThird, h3, List.getElem?_cons_succ]
      exact ih j

theorem zip3With_getElem? (f : α → β → γ → δ) (la : List α) (lb : List β) (lc : List γ)
    (i : ℕ) (a : α) (b : β) (c : γ)
    (ha : la[i]? = some a) (hb : lb[i]? = some b) (hc : lc[i]? = some c) :
    (zip3With f la lb lc)[i]? = some (f a b c) := by
  induction la generalizing lb lc i with
  | nil => simp at ha
  | cons x xs ih =>
    cases lb with
    | nil => simp at hb
    | cons y ys =>
      cases lc with
      | nil => simp at hc
      | cons z zs =>
        cases i with
        | zero =>
          simp at ha hb hc
          simp [zip3With, ha, hb, hc]
        | succ j =>
          simp at ha hb hc
          simpa [zip3With] using ih ys zs j ha hb hc

theorem getKey_enumFrom (l : List α) (k i : ℕ) :
    getKey (l.enumFrom k) (k + i) = l[i]? := by
  induction l generalizing k i with
  | nil => simp [getKey]
  | cons x xs ih =>
    cases i with
    | zero => simp [List.enumFrom, getKey]
    | succ j =>
      have hne : k ≠ k + (j + 1) := by omega
      have h2 : k + (j + 1) = (k + 1) + j := by omega
      simp only [List.enumFrom, getKey]
      rw [if_neg hne, h2, ih (k + 1) j]
      simp

theorem getKey_enum (l : List α) (i : ℕ) : getKey l.enum i = l[i]? := by
  simpa using getKey_enumFrom l 0 i

theorem mkDict_getKey (nc : ℕ) (l : List α) (d : List (ℕ × α)) (i : ℕ)
    (hd : mkDict nc l = some d) (hi : i < nc) : getKey d i = l[i]? := by
  unfold mkDict at hd
  by_cases h : nc ≤ l.length
  · simp only [h, if_pos] at hd
    cases hd
    rw [getKey_enum, List.getElem?_take_of_lt hi]
  · simp [h] at hd

theorem mkDict_isSome (nc : ℕ) (l : List α) (d : List (ℕ × α)) (i : ℕ)
    (hd : mkDict nc l = some d) (hi : i < nc) : (getKey d i).isSome = true := by
  rw [mkDict_getKey nc l d i hd hi]
  unfold mkDict at hd
  by_cases h : nc ≤ l.length
  · have hlt : i < l.length := lt_of_lt_of_le hi h
    simp [List.getElem?_eq_getElem hlt]
  · simp [h] at hd

/-! ### Claim theorems: `input_generate` -/

theorem computeNdof_cases (l : List OSElement) :
    (computeNdof l = 3 ↔ ∀ e ∈ l, e.etype ∈ lineElementTypes) ∧
    (computeNdof l = 3 ∨ computeNdof l = 6) := by
  induction l with
  | nil => simp [computeNdof]
  | cons e rest ih =>
    by_cases h : e.etype ∈ lineElementTypes
    · constructor
      · rw [show computeNdof (e :: rest) = computeNdof rest from by
          simp [computeNdof, h]]
        simp [h, ih.1]
      · rw [show computeNdof (e :: rest) = computeNdof rest from by
          simp [computeNdof, h]]
        exact ih.2
    · constructor
      · simp [computeNdof, h]
      · simp [computeNdof, h]

/-- Claim C6: `input_generate` creates the input deck named
`'{path}{name}.tcl'` and writes its sections in the fixed order
heading, nodes, boundary conditions, materials, elements, steps. -/
theorem input_generate_file_and_sections (s : OSStructure F) :
    (input_generate s).filename = s.path ++ s.name ++ ".tcl" ∧
    (input_generate s).sections =
      [WSection.heading, WSection.nodes, WSection.boundary_conditions,
       WSection.materials, WSection.elements, WSection.steps] :=
  ⟨rfl, rfl⟩

/-- Claim C9: the `ndof` handed to the `Writer` is 3 exactly when every
element type is a truss/tie/strut/spring type (vacuously with no
elements), and 6 otherwise. -/
theorem input_generate_ndof (s : OSStructure F) :
    ((input_generate s).ndof = 3 ↔ ∀ e ∈ s.elements, e.etype ∈ lineElementTypes) ∧
    ((¬ ∀ e ∈ s.elements, e.etype ∈ lineElementTypes) → (input_generate s).ndof = 6) := by
  have h := computeNdof_cases s.elements
  refine ⟨h.1, fun hn => ?_⟩
  rcases h.2 with h3 | h6
  · exact absurd (h.1.mp h3) hn
  · exact h6

theorem input_generate_ndof_witness :
    (¬ ∀ e ∈ sampleStruct.elements, e.etype ∈ lineElementTypes) ∧
    (input_generate sampleStruct).ndof = 6 :=
  ⟨by decide, (input_generate_ndof sampleStruct).2 (by decide)⟩

/-! ### Claim theorems: `launch_process` -/

/-- Claim C4: the analysis runs as the shell command
`'{exe} {path}{name}.tcl'` (with `exe` defaulting to `C:/OpenSees.exe`
when falsy) from the working directory `'{path}{name}/'`, which is
`os.mkdir`-ed beforehand exactly when `os.stat` says it is missing. -/
theorem launch_process_command_and_cwd (env : OSEnv) (s : OSStructure F)
    (exe : Option String) (output : Bool) :
    (launch_process env s exe output).fx =
      [OSEffect.stat (s.path ++ s.name ++ "/")] ++
      (if env.dirExists (s.path ++ s.name ++ "/") then []
       else [OSEffect.mkdir (s.path ++ s.name ++ "/")]) ++
      (if env.dirExists (s.path ++ s.name ++ "/") || env.mkdirOk (s.path ++ s.name ++ "/")
       then [OSEffect.popen (resolveExe exe ++ " " ++ s.path ++ s.name ++ ".tcl")
               (s.path ++ s.name ++ "/")]
       else []) ∧
    resolveExe none = "C:/OpenSees.exe" ∧
    (∀ e : String, resolveExe (some e) = if e = "" then "C:/OpenSees.exe" else e) := by
  refine ⟨?_, rfl, fun e => rfl⟩
  by_cases hd : env.dirExists (s.path ++ s.name ++ "/")
  · simp only [launch_process, hd, if_true, Bool.true_or]
    cases env.popenRes (resolveExe exe ++ " " ++ s.path ++ s.name ++ ".tcl")
        (s.path ++ s.name ++ "/") with
    | none => simp
    | some r => obtain ⟨ls, so, se⟩ := r; simp
  · by_cases hm : env.mkdirOk (s.path ++ s.name ++ "/")
    · simp only [launch_process, hd, if_false, hm, if_true, Bool.false_or]
      cases env.popenRes (resolveExe exe ++ " " ++ s.path ++ s.name ++ ".tcl")
          (s.path ++ s.name ++ "/") with
      | none => simp
      | some r => obtain ⟨ls, so, se⟩ := r; simp
    · simp [launch_process, hd, hm]

theorem readLoop_true (ls : List String) :
    readLoop true ls = (ls.takeWhile (fun l => l ≠ "")).map String.trim := by
  induction ls with
  | nil => simp [readLoop]
  | cons l rest ih =>
    by_cases h : l = ""
    · simp [readLoop, h, List.takeWhile]
    · simp [readLoop, h, List.takeWhile, ih]

theorem readLoop_false (ls : List String) : readLoop false ls = [] := by
  induction ls with
  | nil => simp [readLoop]
  | cons l rest ih =>
    by_cases h : l = ""
    · simp [readLoop, h]
    · simp [readLoop, h, ih]

/-- Claim C5: `launch_process` scrapes stdout line by line until a
falsy line, printing each stripped line exactly when `output` is set;
any raise is swallowed by a catch-all that prints only the single
failure message, so the call always returns (it is a total function)
and, in the failure case, the handler's message is the whole log. -/
theorem launch_process_stdout_and_catchall (env : OSEnv) (s : OSStructure F)
    (exe : Option String) (output : Bool) :
    ((launch_process env s exe output).rlog = [failMsg] ∨
      (∃ ls so se,
        env.popenRes (resolveExe exe ++ " " ++ s.path ++ s.name ++ ".tcl")
            (s.path ++ s.name ++ "/") = some (ls, so, se) ∧
        (launch_process env s exe output).rlog =
          ["Executing command  " ++ (resolveExe exe ++ " " ++ s.path ++ s.name ++ ".tcl")]
            ++ readLoop output ls
            ++ (if output then [so, se] else [])
            ++ ["\n***** OpenSees analysis time : " ++ env.tocs ++ " s *****"])) ∧
    (∀ ls, readLoop true ls = (ls.takeWhile (fun l => l ≠ "")).map String.trim) ∧
    (∀ ls, readLoop false ls = []) := by
  refine ⟨?_, readLoop_true, readLoop_false⟩
  by_cases hd : env.dirExists (s.path ++ s.name ++ "/")
  · rcases hp : env.popenRes (resolveExe exe ++ " " ++ s.path ++ s.name ++ ".tcl")
        (s.path ++ s.name ++ "/") with _ | ⟨ls, so, se⟩
    · left
      simp [launch_process, hd, hp]
    · right
      exact ⟨ls, so, se, rfl, by simp [launch_process, hd, hp]⟩
  · by_cases hm : env.mkdirOk (s.path ++ s.name ++ "/")
    · rcases hp : env.popenRes (resolveExe exe ++ " " ++ s.path ++ s.name ++ ".tcl")
          (s.path ++ s.name ++ "/") with _ | ⟨ls, so, se⟩
      · left
        simp [launch_process, hd, hm, hp]
      · right
        exact ⟨ls, so, se, rfl, by simp [launch_process, hd, hm, hp]⟩
    · left
      simp [launch_process, hd, hm]

/-! ### Claim theorems: `extract_data` -/

/-- Claim C8: `extract_data` rebinds `structure.results` only at the
key `steps_order[1]`; every other step's entry is untouched; and with
fewer than two entries in `steps_order` the subscript raises before
any file is opened, leaving `results` fully unchanged. -/
theorem extract_data_frame [CommRing F] (ops : FOps F) (s : OSStructure F)
    (fields : List String) (fs : FS) (k : String) :
    ((s.steps_order[1]?).isNone ↔ s.steps_order.length < 2) ∧
    (∀ step, s.steps_order[1]? = some step → k ≠ step →
      getKey (extract_data ops s fields fs).results k = getKey s.results k) ∧
    (s.steps_order[1]? = none →
      (extract_data ops s fields fs).results = s.results ∧
      (extract_data ops s fields fs).err.isSome = true ∧
      (extract_data ops s fields fs).accessed = []) := by
  refine ⟨?_, ?_, ?_⟩
  · rw [Option.isNone_iff_eq_none, List.getElem?_eq_none_iff]
    omega
  · intro step hstep hk
    have hgen : ∀ r : StepResults F, getKey (setKey s.results step r) k = getKey s.results k :=
      fun r => getKey_setKey_ne s.results step k r hk
    simp only [extract_data, hstep]
    rcases h1 : getKey s.steps step with _ | loadKeys
    · simpa using hgen _
    · dsimp only
      rcases h2 : loadsPhase s loadKeys (initLoadKeys F s.node_count) with n | n
      · simpa using hgen _
      · simpa using hgen _
  · intro hnone
    simp [extract_data, hnone]

theorem extract_data_frame_witness :
    ((sampleStruct.steps_order[1]?).isNone ↔ sampleStruct.steps_order.length < 2) ∧
    getKey (extract_data ⟨fun _ => none, id⟩ sampleStruct []
        ⟨fun _ => none, fun _ => none⟩).results "old_step" =
      getKey sampleStruct.results "old_step" :=
  ⟨(extract_data_frame ⟨fun _ => none, id⟩ sampleStruct [] ⟨fun _ => none, fun _ => none⟩
      "old_step").1,
   (extract_data_frame ⟨fun _ => none, id⟩ sampleStruct [] ⟨fun _ => none, fun _ => none⟩
      "old_step").2.1 "step_load" (by decide) (by decide)⟩

theorem nodalAttempt_isErr_const [CommRing F] (ops : FOps F) (fs : FS) (fname : String)
    (nc : ℕ) (field : String) (n n' : NodalDict F) :
    isErr (nodalAttempt ops fs fname nc field n) =
      isErr (nodalAttempt ops fs fname nc field n') := by
  unfold nodalAttempt
  cases fs.files fname with
  | none => rfl
  | some lines =>
    dsimp only
    cases lines.getLast? with
    | none => rfl
    | some last =>
      dsimp only
      cases parseAll ops.pf ((pysplit last).drop 1) with
      | none => rfl
      | some data =>
        dsimp only
        cases mkDict nc (everyThird data) with
        | none => rfl
        | some dx =>
          dsimp only
          cases mkDict nc (everyThird (data.drop 1)) with
          | none => rfl
          | some dy =>
            dsimp only
            cases mkDict nc (everyThird (data.drop 2)) with
            | none => rfl
            | some dz =>
              dsimp only
              cases mkDict nc (zip3With (fun u v w => ops.sq (u * u + v * v + w * w))
                  (everyThird data) (everyThird (data.drop 1)) (everyThird (data.drop 2))) <;>
                rfl

theorem sfAttempt_isErr_const [CommRing F] (ops : FOps F) (fs : FS)
    (fnameOut fnameJson : String) (e e' : ElemDict F) :
    isErr (sfAttempt ops fs fnameOut fnameJson e).1 =
      isErr (sfAttempt ops fs fnameOut fnameJson e').1 := by
  unfold sfAttempt
  cases fs.files fnameOut with
  | none => rfl
  | some lines =>
    dsimp only
    cases lines.getLast? with
    | none => rfl
    | some last =>
      dsimp only
      cases parseAll ops.pf ((pysplit last).drop 1) with
      | none => rfl
      | some data =>
        dsimp only
        cases fs.jsonTruss fnameJson <;> rfl

theorem extract_data_err_indep [CommRing F] (ops : FOps F) (s : OSStructure F)
    (fields fields' : List String) (fs fs' : FS) :
    (extract_data ops s fields fs).err = (extract_data ops s fields' fs').err := by
  unfold extract_data
  cases s.steps_order[1]? with
  | none => rfl
  | some step =>
    dsimp only
    cases getKey s.steps step with
    | none => rfl
    | some loadKeys =>
      dsimp only
      cases loadsPhase s loadKeys (initLoadKeys F s.node_count) <;> rfl

theorem processField_plog_extends [CommRing F] (ops : FOps F) (fs : FS)
    (temp step : String) (nc : ℕ) (st : PState F) (field : String) :
    ∃ t, (processField ops fs temp step nc st field).plog = st.plog ++ t := by
  unfold processField
  by_cases h1 : field ∈ nodalFields
  · rw [if_pos h1]
    dsimp only
    cases nodalAttempt ops fs (temp ++ step ++ "_" ++ field ++ ".out") nc field st.nodal with
    | error n => exact ⟨_, rfl⟩
    | ok n => exact ⟨_, rfl⟩
  · rw [if_neg h1]
    by_cases h2 : field ∈ ["sf"]
    · rw [if_pos h2]
      dsimp only
      rcases sfAttempt ops fs (temp ++ step ++ "_" ++ field ++ "_truss.out")
          (temp ++ "truss_ekeys.json") st.element with ⟨res, acc⟩
      cases res with
      | error e => exact ⟨_, rfl⟩
      | ok e => exact ⟨_, rfl⟩
    · rw [if_neg h2]
      exact ⟨[], by simp⟩

theorem foldl_plog_extends [CommRing F] (ops : FOps F) (fs : FS) (temp step : String)
    (nc : ℕ) (l : List String) (st : PState F) :
    ∃ t, (l.foldl (processField ops fs temp step nc) st).plog = st.plog ++ t := by
  induction l generalizing st with
  | nil => exact ⟨[], by simp⟩
  | cons g rest ih =>
    obtain ⟨t2, h2⟩ := ih (processField ops fs temp step nc st g)
    obtain ⟨t1, h1⟩ := processField_plog_extends ops fs temp step nc st g
    exact ⟨t1 ++ t2, by simp only [List.foldl_cons, h2, h1, List.append_assoc]⟩

theorem processField_fail_plog [CommRing F] (ops : FOps F) (fs : FS)
    (temp step : String) (nc : ℕ) (st : PState F) (field : String)
    (hfail : fieldFails ops fs temp step nc field = true) :
    (processField ops fs temp step nc st field).plog =
      st.plog ++ [if field ∈ nodalFields then nodalFailMsg step field else sfFailMsg] := by
  by_cases h1 : field ∈ nodalFields
  · rw [fieldFails, if_pos h1] at hfail
    have hc := nodalAttempt_isErr_const ops fs (temp ++ step ++ "_" ++ field ++ ".out")
      nc field st.nodal []
    rw [← hc] at hfail
    unfold processField
    rw [if_pos h1]
    dsimp only
    rcases hn : nodalAttempt ops fs (temp ++ step ++ "_" ++ field ++ ".out")
        nc field st.nodal with n | n
    · simp [h1]
    · rw [hn] at hfail
      simp [isErr] at hfail
  · by_cases h2 : field ∈ ["sf"]
    · rw [fieldFails, if_neg h1, if_pos h2] at hfail
      have hc := sfAttempt_isErr_const ops fs (temp ++ step ++ "_" ++ field ++ "_truss.out")
        (temp ++ "truss_ekeys.json") st.element []
      rw [← hc] at hfail
      unfold processField
      rw [if_neg h1, if_pos h2]
      dsimp only
      rcases hs : sfAttempt ops fs (temp ++ step ++ "_" ++ field ++ "_truss.out")
          (temp ++ "truss_ekeys.json") st.element with ⟨res, acc⟩
      cases res with
      | error e => simp [h1]
      | ok e =>
        rw [hs] at hfail
        simp [isErr] at hfail
    · rw [fieldFails, if_neg h1, if_neg h2] at hfail
      exact absurd hfail (by simp)

theorem processField_skip [CommRing F] (ops : FOps F) (fs : FS) (temp step : String)
    (nc : ℕ) (st : PState F) (field : String)
    (h1 : field ∉ nodalFields) (h2 : field ∉ ["sf"]) :
    processField ops fs temp step nc st field = st := by
  unfold processField
  rw [if_neg h1, if_neg h2]

/-- Claim C1: for requested fields in `['u','ur','rf','rm','sf']` any
exception while opening or parsing the `.out` files is caught (the
overall error status does not depend on the file system at all), the
corresponding not-loaded message is printed, and the loop continues;
a field outside that set is skipped silently, with no file access and
no output (dropping it from `fields` changes nothing). -/
theorem extract_data_swallows_field_errors [CommRing F] (ops : FOps F)
    (s : OSStructure F) (fs fs' : FS) (pre post : List String) (f g step : String)
    (hstep : s.steps_order[1]? = some step)
    (_hf : f ∈ ["u", "ur", "rf", "rm", "sf"])
    (hfail : fieldFails ops fs s.temp step s.node_count f = true)
    (herr : (extract_data ops s (pre ++ f :: post) fs).err = none)
    (hg : g ∉ ["u", "ur", "rf", "rm", "sf"]) :
    (extract_data ops s (pre ++ f :: post) fs').err = none ∧
    (if f ∈ nodalFields then nodalFailMsg step f else sfFailMsg)
      ∈ (extract_data ops s (pre ++ f :: post) fs).plog ∧
    extract_data ops s (pre ++ g :: post) fs = extract_data ops s (pre ++ post) fs := by
  have hg1 : g ∉ nodalFields := fun hm => hg (by
    simp only [nodalFields, List.mem_cons, List.not_mem_nil] at hm
    simp only [List.mem_cons, List.not_mem_nil]
    tauto)
  have hg2 : g ∉ ["sf"] := fun hm => hg (by
    simp only [List.mem_cons, List.not_mem_nil] at hm
    simp only [List.mem_cons, List.not_mem_nil]
    tauto)
  have hsteps : ∃ loadKeys, getKey s.steps step = some loadKeys := by
    rcases h1 : getKey s.steps step with _ | lk
    · exfalso
      simp only [extract_data, hstep, h1] at herr
      simp at herr
    · exact ⟨lk, rfl⟩
  obtain ⟨loadKeys, hlk⟩ := hsteps
  have hload : ∃ n, loadsPhase s loadKeys (initLoadKeys F s.node_count) = .ok n := by
    rcases h2 : loadsPhase s loadKeys (initLoadKeys F s.node_count) with n | n
    · exfalso
      simp only [extract_data, hstep, hlk, h2] at herr
      simp at herr
    · exact ⟨n, rfl⟩
  obtain ⟨n0, hn0⟩ := hload
  refine ⟨?_, ?_, ?_⟩
  · rw [extract_data_err_indep ops s (pre ++ f :: post) (pre ++ f :: post) fs' fs]
    exact herr
  · simp only [extract_data, hstep, hlk, hn0]
    rw [List.foldl_append, List.foldl_cons]
    obtain ⟨t, ht⟩ := foldl_plog_extends ops fs s.temp step s.node_count post
      (processField ops fs s.temp step s.node_count
        (List.foldl (processField ops fs s.temp step s.node_count) ⟨n0, [], [], []⟩ pre) f)
    rw [ht, processField_fail_plog ops fs s.temp step s.node_count _ f hfail]
    simp
  · simp only [extract_data, hstep, hlk, hn0]
    have hfold : List.foldl (processField ops fs s.temp step s.node_count)
          ⟨n0, [], [], []⟩ (pre ++ g :: post) =
        List.foldl (processField ops fs s.temp step s.node_count)
          ⟨n0, [], [], []⟩ (pre ++ post) := by
      rw [List.foldl_append, List.foldl_append, List.foldl_cons,
          processField_skip ops fs s.temp step s.node_count _ g hg1 hg2]
    rw [hfold]

theorem extract_data_swallows_field_errors_witness :
    (if "u" ∈ nodalFields then nodalFailMsg "step_load" "u" else sfFailMsg) ∈
      (extract_data (⟨fun _ => none, id⟩ : FOps ℤ) sampleStruct ["u"]
        ⟨fun _ => none, fun _ => none⟩).plog ∧
    extract_data (⟨fun _ => none, id⟩ : FOps ℤ) sampleStruct ["zz"]
        ⟨fun _ => none, fun _ => none⟩ =
      extract_data (⟨fun _ => none, id⟩ : FOps ℤ) sampleStruct []
        ⟨fun _ => none, fun _ => none⟩ := by
  have h := extract_data_swallows_field_errors (⟨fun _ => none, id⟩ : FOps ℤ)
    sampleStruct ⟨fun _ => none, fun _ => none⟩ ⟨fun _ => none, fun _ => none⟩
    [] [] "u" "zz" "step_load" (by decide) (by decide) (by decide) (by decide) (by decide)
  exact ⟨h.2.1, h.2.2⟩

theorem string_append_left_cancel (a b c : String) (h : a ++ b = a ++ c) : b = c := by
  have hd : a.data ++ b.data = a.data ++ c.data := congrArg String.data h
  have := List.append_cancel_left hd
  cases b
  cases c
  exact congrArg String.mk this

theorem getKey_setKey_cases [DecidableEq κ] (d : List (κ × α)) (k q : κ) (v : α) :
    getKey (setKey d k v) q = getKey d q ∨ getKey (setKey d k v) q = some v := by
  by_cases h : q = k
  · subst h
    exact Or.inr (getKey_setKey_self d q v)
  · exact Or.inl (getKey_setKey_ne d k q v h)

/-- Every dict a nodal `try` block leaves behind agrees with the
incoming dict on every key it did not write, and every key it wrote
holds a per-node dict defined on all of `range(node_count)`. -/
theorem nodalAttempt_writes [CommRing F] (ops : FOps F) (fs : FS) (fname : String)
    (nc : ℕ) (field : String) (n : NodalDict F) (q : String) :
    getKey (exVal (nodalAttempt ops fs fname nc field n)) q = getKey n q ∨
    ∃ d, getKey (exVal (nodalAttempt ops fs fname nc field n)) q = some d ∧
      fullDict nc d := by
  unfold nodalAttempt
  cases fs.files fname with
  | none => exact Or.inl rfl
  | some lines =>
    dsimp only
    cases lines.getLast? with
    | none => exact Or.inl rfl
    | some last =>
      dsimp only
      cases parseAll ops.pf ((pysplit last).drop 1) with
      | none => exact Or.inl rfl
      | some data =>
        dsimp only
        rcases hx : mkDict nc (everyThird data) with _ | dx
        · exact Or.inl rfl
        · dsimp only
          rcases hy : mkDict nc (everyThird (data.drop 1)) with _ | dy
          · rcases getKey_setKey_cases n (field ++ "x") q dx with h | h
            · exact Or.inl h
            · exact Or.inr ⟨dx, h, fun i hi => mkDict_isSome nc _ dx i hx hi⟩
          · dsimp only
            rcases hz : mkDict nc (everyThird (data.drop 2)) with _ | dz
            · rcases getKey_setKey_cases (setKey n (field ++ "x") dx) (field ++ "y") q dy
                with h | h
              · rcases getKey_setKey_cases n (field ++ "x") q dx with h' | h'
                · exact Or.inl (h.trans h')
                · exact Or.inr ⟨dx, h.trans h', fun i hi => mkDict_isSome nc _ dx i hx hi⟩
              · exact Or.inr ⟨dy, h, fun i hi => mkDict_isSome nc _ dy i hy hi⟩
            · dsimp only
              rcases hm : mkDict nc (zip3With (fun u v w => ops.sq (u * u + v * v + w * w))
                  (everyThird data) (everyThird (data.drop 1)) (everyThird (data.drop 2)))
                  with _ | dm
              · rcases getKey_setKey_cases (setKey (setKey n (field ++ "x") dx)
                    (field ++ "y") dy) (field ++ "z") q dz with h | h
                · rcases getKey_setKey_cases (setKey n (field ++ "x") dx) (field ++ "y") q dy
                    with h' | h'
                  · rcases getKey_setKey_cases n (field ++ "x") q dx with h'' | h''
                    · exact Or.inl ((h.trans h').trans h'')
                    · exact Or.inr ⟨dx, (h.trans h').trans h'',
                        fun i hi => mkDict_isSome nc _ dx i hx hi⟩
                  · exact Or.inr ⟨dy, h.trans h', fun i hi => mkDict_isSome nc _ dy i hy hi⟩
                · exact Or.inr ⟨dz, h, fun i hi => mkDict_isSome nc _ dz i hz hi⟩
              · rcases getKey_setKey_cases (setKey (setKey (setKey n (field ++ "x") dx)
                    (field ++ "y") dy) (field ++ "z") dz) (field ++ "m") q dm with h | h
                · rcases getKey_setKey_cases (setKey (setKey n (field ++ "x") dx)
                      (field ++ "y") dy) (field ++ "z") q dz with h' | h'
                  · rcases getKey_setKey_cases (setKey n (field ++ "x") dx) (field ++ "y") q dy
                      with h'' | h''
                    · rcases getKey_setKey_cases n (field ++ "x") q dx with h''' | h'''
                      · exact Or.inl (((h.trans h').trans h'').trans h''')
                      · exact Or.inr ⟨dx, ((h.trans h').trans h'').trans h''',
                          fun i hi => mkDict_isSome nc _ dx i hx hi⟩
                    · exact Or.inr ⟨dy, (h.trans h').trans h'',
                        fun i hi => mkDict_isSome nc _ dy i hy hi⟩
                  · exact Or.inr ⟨dz, h.trans h', fun i hi => mkDict_isSome nc _ dz i hz hi⟩
                · exact Or.inr ⟨dm, h, fun i hi => mkDict_isSome nc _ dm i hm hi⟩

/-- A completed nodal `try` block has written all four keys of its
field with dicts defined on every node key. -/
theorem nodalAttempt_ok_full [CommRing F] (ops : FOps F) (fs : FS) (fname : String)
    (nc : ℕ) (field : String) (n n' : NodalDict F)
    (hok : nodalAttempt ops fs fname nc field n = .ok n') :
    fullKeysP nc field n' := by
  unfold nodalAttempt at hok
  rcases hfile : fs.files fname with _ | lines <;> simp only [hfile] at hok
  · cases hok
  rcases hlast : lines.getLast? with _ | last <;> simp only [hlast] at hok
  · cases hok
  rcases hparse : parseAll ops.pf ((pysplit last).drop 1) with _ | data <;>
    simp only [hparse] at hok
  · cases hok
  rcases hx : mkDict nc (everyThird data) with _ | dx <;> simp only [hx] at hok
  · cases hok
  rcases hy : mkDict nc (everyThird (data.drop 1)) with _ | dy <;> simp only [hy] at hok
  · cases hok
  rcases hz : mkDict nc (everyThird (data.drop 2)) with _ | dz <;> simp only [hz] at hok
  · cases hok
  rcases hm : mkDict nc (zip3With (fun u v w => ops.sq (u * u + v * v + w * w))
      (everyThird data) (everyThird (data.drop 1)) (everyThird (data.drop 2)))
      with _ | dm <;> simp only [hm] at hok
  · cases hok
  have hn' : n' = setKey (setKey (setKey (setKey n (field ++ "x") dx) (field ++ "y") dy)
      (field ++ "z") dz) (field ++ "m") dm := by
    cases hok
    rfl
  subst hn'
  have hsuf : ∀ c c' : String, c ≠ c' → field ++ c ≠ field ++ c' :=
    fun c c' hne he => hne (string_append_left_cancel field c c' he)
  intro c hc
  simp only [List.mem_cons, List.not_mem_nil, or_false] at hc
  rcases hc with rfl | rfl | rfl | rfl
  · refine ⟨dx, ?_, fun i hi => mkDict_isSome nc _ dx i hx hi⟩
    rw [getKey_setKey_ne _ _ _ _ (hsuf "x" "m" (by decide)),
        getKey_setKey_ne _ _ _ _ (hsuf "x" "z" (by decide)),
        getKey_setKey_ne _ _ _ _ (hsuf "x" "y" (by decide)),
        getKey_setKey_self]
  · refine ⟨dy, ?_, fun i hi => mkDict_isSome nc _ dy i hy hi⟩
    rw [getKey_setKey_ne _ _ _ _ (hsuf "y" "m" (by decide)),
        getKey_setKey_ne _ _ _ _ (hsuf "y" "z" (by decide)),
        getKey_setKey_self]
  · refine ⟨dz, ?_, fun i hi => mkDict_isSome nc _ dz i hz hi⟩
    rw [getKey_setKey_ne _ _ _ _ (hsuf "z" "m" (by decide)),
        getKey_setKey_self]
  · exact ⟨dm, getKey_setKey_self _ _ _, fun i hi => mkDict_isSome nc _ dm i hm hi⟩

/-- The nodal dict after a `processField` step is the incoming one, or
the one a nodal `try` block left behind. -/
theorem processField_nodal_shape [CommRing F] (ops : FOps F) (fs : FS)
    (temp step : String) (nc : ℕ) (st : PState F) (g : String) :
    (processField ops fs temp step nc st g).nodal = st.nodal ∨
    (processField ops fs temp step nc st g).nodal =
      exVal (nodalAttempt ops fs (temp ++ step ++ "_" ++ g ++ ".out") nc g st.nodal) := by
  unfold processField
  by_cases h1 : g ∈ nodalFields
  · rw [if_pos h1]
    dsimp only
    cases hn : nodalAttempt ops fs (temp ++ step ++ "_" ++ g ++ ".out") nc g st.nodal with
    | error n => exact Or.inr rfl
    | ok n => exact Or.inr rfl
  · rw [if_neg h1]
    by_cases h2 : g ∈ ["sf"]
    · rw [if_pos h2]
      dsimp only
      rcases sfAttempt ops fs (temp ++ step ++ "_" ++ g ++ "_truss.out")
          (temp ++ "truss_ekeys.json") st.element with ⟨res, acc⟩
      cases res with
      | error e => exact Or.inl rfl
      | ok e => exact Or.inl rfl
    · rw [if_neg h2]
      exact Or.inl rfl

theorem processField_preserves_full [CommRing F] (ops : FOps F) (fs : FS)
    (temp step : String) (nc : ℕ) (st : PState F) (g field : String)
    (h : fullKeysP nc field st.nodal) :
    fullKeysP nc field (processField ops fs temp step nc st g).nodal := by
  rcases processField_nodal_shape ops fs temp step nc st g with hs | hs
  · rw [hs]; exact h
  · rw [hs]
    intro c hc
    obtain ⟨d, hd, hfull⟩ := h c hc
    rcases nodalAttempt_writes ops fs (temp ++ step ++ "_" ++ g ++ ".out") nc g st.nodal
        (field ++ c) with hw | ⟨d', hd', hfull'⟩
    · exact ⟨d, hw.trans hd, hfull⟩
    · exact ⟨d', hd', hfull'⟩

theorem foldl_preserves_full [CommRing F] (ops : FOps F) (fs : FS) (temp step : String)
    (nc : ℕ) (l : List String) (st : PState F) (field : String)
    (h : fullKeysP nc field st.nodal) :
    fullKeysP nc field ((l.foldl (processField ops fs temp step nc) st)).nodal := by
  induction l generalizing st with
  | nil => exact h
  | cons g rest ih =>
    rw [List.foldl_cons]
    exact ih _ (processField_preserves_full ops fs temp step nc st g field h)

theorem processField_establishes_full [CommRing F] (ops : FOps F) (fs : FS)
    (temp step : String) (nc : ℕ) (st : PState F) (f : String)
    (hf : f ∈ nodalFields)
    (hok : fieldFails ops fs temp step nc f = false) :
    fullKeysP nc f (processField ops fs temp step nc st f).nodal := by
  rw [fieldFails, if_pos hf] at hok
  have hc := nodalAttempt_isErr_const ops fs (temp ++ step ++ "_" ++ f ++ ".out")
    nc f st.nodal []
  rw [← hc] at hok
  unfold processField
  rw [if_pos hf]
  dsimp only
  rcases hn : nodalAttempt ops fs (temp ++ step ++ "_" ++ f ++ ".out") nc f st.nodal
      with n | n
  · rw [hn] at hok
    simp [isErr] at hok
  · exact nodalAttempt_ok_full ops fs (temp ++ step ++ "_" ++ f ++ ".out") nc f st.nodal n hn

theorem foldl_full_of_mem [CommRing F] (ops : FOps F) (fs : FS) (temp step : String)
    (nc : ℕ) (l : List String) (st : PState F) (f : String)
    (hf : f ∈ nodalFields) (hmem : f ∈ l)
    (hok : fieldFails ops fs temp step nc f = false) :
    fullKeysP nc f ((l.foldl (processField ops fs temp step nc) st)).nodal := by
  induction l generalizing st with
  | nil => cases hmem
  | cons g rest ih =>
    rw [List.foldl_cons]
    rcases List.mem_cons.mp hmem with rfl | hr
    · exact foldl_preserves_full ops fs temp step nc rest _ f
        (processField_establishes_full ops fs temp step nc st f hf hok)
    · exact ih _ hr

/-- Claim C2: after a successful `extract_data`, `results[step]` for
`step = steps_order[1]` is the fresh two-key `{'nodal', 'element'}`
dict (the `StepResults` record), and for every requested nodal field
whose `.out` file was read without raising, the nodal dict holds the
keys `fx`, `fy`, `fz`, `fm`, each defined on every node index in
`range(node_count())`. -/
theorem extract_data_nodal_fields_complete [CommRing F] (ops : FOps F)
    (s : OSStructure F) (fields : List String) (fs : FS) (f step : String)
    (hstep : s.steps_order[1]? = some step)
    (herr : (extract_data ops s fields fs).err = none)
    (hf : f ∈ nodalFields) (hmem : f ∈ fields)
    (hok : fieldFails ops fs s.temp step s.node_count f = false) :
    ∃ res : StepResults F,
      getKey (extract_data ops s fields fs).results step = some res ∧
      ∀ c ∈ (["x", "y", "z", "m"] : List String),
        ∃ d, getKey res.nodal (f ++ c) = some d ∧
          ∀ i < s.node_count, (getKey d i).isSome = true := by
  have hsteps : ∃ loadKeys, getKey s.steps step = some loadKeys := by
    rcases h1 : getKey s.steps step with _ | lk
    · exfalso
      simp only [extract_data, hstep, h1] at herr
      simp at herr
    · exact ⟨lk, rfl⟩
  obtain ⟨loadKeys, hlk⟩ := hsteps
  have hload : ∃ n, loadsPhase s loadKeys (initLoadKeys F s.node_count) = .ok n := by
    rcases h2 : loadsPhase s loadKeys (initLoadKeys F s.node_count) with n | n
    · exfalso
      simp only [extract_data, hstep, hlk, h2] at herr
      simp at herr
    · exact ⟨n, rfl⟩
  obtain ⟨n0, hn0⟩ := hload
  simp only [extract_data, hstep, hlk, hn0]
  refine ⟨_, getKey_setKey_self _ _ _, ?_⟩
  exact foldl_full_of_mem ops fs s.temp step s.node_count fields ⟨n0, [], [], []⟩ f
    hf hmem hok

theorem extract_data_nodal_fields_complete_witness :
    ∃ res : StepResults ℤ,
      getKey (extract_data sampleOps sampleStruct ["u"] sampleFS).results "step_load" =
        some res ∧
      ∀ c ∈ (["x", "y", "z", "m"] : List String),
        ∃ d, getKey res.nodal ("u" ++ c) = some d ∧
          ∀ i < sampleStruct.node_count, (getKey d i).isSome = true :=
  extract_data_nodal_fields_complete sampleOps sampleStruct ["u"] sampleFS "u" "step_load"
    (by decide) (by decide) (by decide) (by decide) (by decide)

theorem everyThird_length (l : List α) : (everyThird l).length = (l.length + 2) / 3 := by
  induction l using everyThird.induct with
  | case1 => simp [everyThird]
  | case2 a => simp [everyThird]
  | case3 a b => simp [everyThird]
  | case4 a b c rest ih =>
    simp only [everyThird, List.length_cons, ih]
    omega

theorem zip3With_length (f : α → β → γ → δ) (la : List α) (lb : List β) (lc : List γ) :
    (zip3With f la lb lc).length = min (min la.length lb.length) lc.length := by
  induction la generalizing lb lc with
  | nil => simp [zip3With]
  | cons a as ih =>
    cases lb with
    | nil => simp [zip3With]
    | cons b bs =>
      cases lc with
      | nil => simp [zip3With]
      | cons c cs =>
        simp only [zip3With, List.length_cons, ih]
        omega

theorem nodalKeys_disjoint :
    ∀ f ∈ nodalFields, ∀ g ∈ nodalFields, f ≠ g →
      ∀ c ∈ (["x", "y", "z", "m"] : List String),
        ∀ c' ∈ (["x", "y", "z", "m"] : List String), f ++ c ≠ g ++ c' := by
  decide

/-- A nodal `try` block only writes the four keys of its own field. -/
theorem nodalAttempt_preserves_outside [CommRing F] (ops : FOps F) (fs : FS)
    (fname : String) (nc : ℕ) (g : String) (n : NodalDict F) (q : String)
    (hq : ∀ c' ∈ (["x", "y", "z", "m"] : List String), q ≠ g ++ c') :
    getKey (exVal (nodalAttempt ops fs fname nc g n)) q = getKey n q := by
  have hx' := hq "x" (by decide)
  have hy' := hq "y" (by decide)
  have hz' := hq "z" (by decide)
  have hm' := hq "m" (by decide)
  unfold nodalAttempt
  cases fs.files fname with
  | none => rfl
  | some lines =>
    dsimp only
    cases lines.getLast? with
    | none => rfl
    | some last =>
      dsimp only
      cases parseAll ops.pf ((pysplit last).drop 1) with
      | none => rfl
      | some data =>
        dsimp only
        cases mkDict nc (everyThird data) with
        | none => rfl
        | some dx =>
          dsimp only
          cases mkDict nc (everyThird (data.drop 1)) with
          | none =>
            exact getKey_setKey_ne n (g ++ "x") q dx hx'
          | some dy =>
            dsimp only
            cases mkDict nc (everyThird (data.drop 2)) with
            | none =>
              rw [show exVal (Except.error (setKey (setKey n (g ++ "x") dx) (g ++ "y") dy)
                    : Except (NodalDict F) (NodalDict F)) =
                  setKey (setKey n (g ++ "x") dx) (g ++ "y") dy from rfl,
                getKey_setKey_ne _ _ _ _ hy', getKey_setKey_ne _ _ _ _ hx']
            | some dz =>
              dsimp only
              cases mkDict nc (zip3With (fun u v w => ops.sq (u * u + v * v + w * w))
                  (everyThird data) (everyThird (data.drop 1))
                  (everyThird (data.drop 2))) with
              | none =>
                rw [show exVal (Except.error (setKey (setKey (setKey n (g ++ "x") dx)
                      (g ++ "y") dy) (g ++ "z") dz) : Except (NodalDict F) (NodalDict F)) =
                    setKey (setKey (setKey n (g ++ "x") dx) (g ++ "y") dy) (g ++ "z") dz
                    from rfl,
                  getKey_setKey_ne _ _ _ _ hz', getKey_setKey_ne _ _ _ _ hy',
                  getKey_setKey_ne _ _ _ _ hx']
              | some dm =>
                rw [show exVal (Except.ok (setKey (setKey (setKey (setKey n (g ++ "x") dx)
                      (g ++ "y") dy) (g ++ "z") dz) (g ++ "m") dm)
                      : Except (NodalDict F) (NodalDict F)) =
                    setKey (setKey (setKey (setKey n (g ++ "x") dx) (g ++ "y") dy)
                      (g ++ "z") dz) (g ++ "m") dm from rfl,
                  getKey_setKey_ne _ _ _ _ hm', getKey_setKey_ne _ _ _ _ hz',
                  getKey_setKey_ne _ _ _ _ hy', getKey_setKey_ne _ _ _ _ hx']

theorem processField_preserves_other_keys [CommRing F] (ops : FOps F) (fs : FS)
    (temp step : String) (nc : ℕ) (st : PState F) (g f c : String)
    (hf : f ∈ nodalFields) (hc : c ∈ (["x", "y", "z", "m"] : List String))
    (hne : g ≠ f) :
    getKey (processField ops fs temp step nc st g).nodal (f ++ c) =
      getKey st.nodal (f ++ c) := by
  rcases processField_nodal_shape ops fs temp step nc st g with hs | hs
  · rw [hs]
  · rw [hs]
    by_cases h1 : g ∈ nodalFields
    · exact nodalAttempt_preserves_outside ops fs (temp ++ step ++ "_" ++ g ++ ".out")
        nc g st.nodal (f ++ c)
        (fun c' hc' => nodalKeys_disjoint f hf g h1 (fun he => hne he.symm) c hc c' hc')
    · -- a field outside `nodalFields` never reaches the nodal branch, so the
      -- shape disjunct degenerates: the attempt is only evaluated there.
      have : (processField ops fs temp step nc st g).nodal = st.nodal := by
        unfold processField
        rw [if_neg h1]
        by_cases h2 : g ∈ ["sf"]
        · rw [if_pos h2]
          dsimp only
          rcases sfAttempt ops fs (temp ++ step ++ "_" ++ g ++ "_truss.out")
              (temp ++ "truss_ekeys.json") st.element with ⟨res, acc⟩
          cases res with
          | error e => rfl
          | ok e => rfl
        · rw [if_neg h2]
      rw [← hs, this]

theorem foldl_preserves_other_keys [CommRing F] (ops : FOps F) (fs : FS)
    (temp step : String) (nc : ℕ) (l : List String) (st : PState F) (f c : String)
    (hf : f ∈ nodalFields) (hc : c ∈ (["x", "y", "z", "m"] : List String))
    (hpost : f ∉ l) :
    getKey ((l.foldl (processField ops fs temp step nc) st)).nodal (f ++ c) =
      getKey st.nodal (f ++ c) := by
  induction l generalizing st with
  | nil => rfl
  | cons g rest ih =>
    rw [List.foldl_cons]
    have hgr : f ∉ rest := fun h => hpost (List.mem_cons_of_mem g h)
    have hgne : g ≠ f := fun h => hpost (h ▸ List.mem_cons_self g rest)
    rw [ih _ hgr]
    exact processField_preserves_other_keys ops fs temp step nc st g f c hf hc hgne

/-- Claim C3: a nodal field is parsed from `'{path}{name}/{step}_{f}.out'`
by taking only the last line, splitting on single spaces, discarding
the first token and converting the rest to floats; node `i` receives
the values at positions `3i`, `3i+1`, `3i+2` as x, y, z, and the
magnitude key holds `sqrt` of their sum of squares. -/
theorem extract_data_nodal_parsing [CommRing F] (ops : FOps F) (s : OSStructure F)
    (fs : FS) (pre post : List String) (f step : String)
    (lines : List String) (last : String) (data : List F)
    (hstep : s.steps_order[1]? = some step)
    (hf : f ∈ nodalFields)
    (hpost : f ∉ post)
    (herr : (extract_data ops s (pre ++ f :: post) fs).err = none)
    (hfile : fs.files (s.temp ++ step ++ "_" ++ f ++ ".out") = some lines)
    (hlast : lines.getLast? = some last)
    (hdata : parseAll ops.pf ((pysplit last).drop 1) = some data)
    (hlen : 3 * s.node_count ≤ data.length) :
    ∃ res : StepResults F, ∃ dX dY dZ dM : List (ℕ × F),
      getKey (extract_data ops s (pre ++ f :: post) fs).results step = some res ∧
      getKey res.nodal (f ++ "x") = some dX ∧
      getKey res.nodal (f ++ "y") = some dY ∧
      getKey res.nodal (f ++ "z") = some dZ ∧
      getKey res.nodal (f ++ "m") = some dM ∧
      ∀ i < s.node_count,
        getKey dX i = data[3 * i]? ∧
        getKey dY i = data[3 * i + 1]? ∧
        getKey dZ i = data[3 * i + 2]? ∧
        ∃ x y z, data[3 * i]? = some x ∧ data[3 * i + 1]? = some y ∧
          data[3 * i + 2]? = some z ∧
          getKey dM i = some (ops.sq (x * x + y * y + z * z)) := by
  have hlx : s.node_count ≤ (everyThird data).length := by
    rw [everyThird_length]; omega
  have hly : s.node_count ≤ (everyThird (data.drop 1)).length := by
    rw [everyThird_length, List.length_drop]; omega
  have hlz : s.node_count ≤ (everyThird (data.drop 2)).length := by
    rw [everyThird_length, List.length_drop]; omega
  have hlm : s.node_count ≤ (zip3With (fun u v w => ops.sq (u * u + v * v + w * w))
      (everyThird data) (everyThird (data.drop 1)) (everyThird (data.drop 2))).length := by
    rw [zip3With_length]
    rw [everyThird_length, everyThird_length, everyThird_length,
      List.length_drop, List.length_drop]
    omega
  rcases hdX : mkDict s.node_count (everyThird data) with _ | dX
  · exfalso; unfold mkDict at hdX; rw [if_pos hlx] at hdX; cases hdX
  rcases hdY : mkDict s.node_count (everyThird (data.drop 1)) with _ | dY
  · exfalso; unfold mkDict at hdY; rw [if_pos hly] at hdY; cases hdY
  rcases hdZ : mkDict s.node_count (everyThird (data.drop 2)) with _ | dZ
  · exfalso; unfold mkDict at hdZ; rw [if_pos hlz] at hdZ; cases hdZ
  rcases hdM : mkDict s.node_count (zip3With (fun u v w => ops.sq (u * u + v * v + w * w))
      (everyThird data) (everyThird (data.drop 1)) (everyThird (data.drop 2)))
      with _ | dM
  · exfalso; unfold mkDict at hdM; rw [if_pos hlm] at hdM; cases hdM
  have hatt : ∀ n : NodalDict F,
      nodalAttempt ops fs (s.temp ++ step ++ "_" ++ f ++ ".out") s.node_count f n =
        Except.ok (setKey (setKey (setKey (setKey n (f ++ "x") dX) (f ++ "y") dY)
          (f ++ "z") dZ) (f ++ "m") dM) := by
    intro n
    unfold nodalAttempt
    simp only [hfile, hlast, hdata, hdX, hdY, hdZ, hdM]
  have hsteps : ∃ loadKeys, getKey s.steps step = some loadKeys := by
    rcases h1 : getKey s.steps step with _ | lk
    · exfalso
      simp only [extract_data, hstep, h1] at herr
      simp at herr
    · exact ⟨lk, rfl⟩
  obtain ⟨loadKeys, hlk⟩ := hsteps
  have hload : ∃ n, loadsPhase s loadKeys (initLoadKeys F s.node_count) = .ok n := by
    rcases h2 : loadsPhase s loadKeys (initLoadKeys F s.node_count) with n | n
    · exfalso
      simp only [extract_data, hstep, hlk, h2] at herr
      simp at herr
    · exact ⟨n, rfl⟩
  obtain ⟨n0, hn0⟩ := hload
  simp only [extract_data, hstep, hlk, hn0]
  rw [List.foldl_append, List.foldl_cons]
  have hpf : (processField ops fs s.temp step s.node_count
        (List.foldl (processField ops fs s.temp step s.node_count)
          ⟨n0, [], [], []⟩ pre) f).nodal =
      setKey (setKey (setKey (setKey
        (List.foldl (processField ops fs s.temp step s.node_count)
          ⟨n0, [], [], []⟩ pre).nodal
        (f ++ "x") dX) (f ++ "y") dY) (f ++ "z") dZ) (f ++ "m") dM := by
    unfold processField
    rw [if_pos hf]
    dsimp only
    simp only [hatt]
  have hsuf : ∀ c c' : String, c ≠ c' → f ++ c ≠ f ++ c' :=
    fun c c' hne he => hne (string_append_left_cancel f c c' he)
  have hkx : getKey ((post.foldl (processField ops fs s.temp step s.node_count)
        (processField ops fs s.temp step s.node_count
          (List.foldl (processField ops fs s.temp step s.node_count)
            ⟨n0, [], [], []⟩ pre) f))).nodal (f ++ "x") = some dX := by
    rw [foldl_preserves_other_keys ops fs s.temp step s.node_count post _ f "x" hf
      (by decide) hpost, hpf,
      getKey_setKey_ne _ _ _ _ (hsuf "x" "m" (by decide)),
      getKey_setKey_ne _ _ _ _ (hsuf "x" "z" (by decide)),
      getKey_setKey_ne _ _ _ _ (hsuf "x" "y" (by decide)),
      getKey_setKey_self]
  have hky : getKey ((post.foldl (processField ops fs s.temp step s.node_count)
        (processField ops fs s.temp step s.node_count
          (List.foldl (processField ops fs s.temp step s.node_count)
            ⟨n0, [], [], []⟩ pre) f))).nodal (f ++ "y") = some dY := by
    rw [foldl_preserves_other_keys ops fs s.temp step s.node_count post _ f "y" hf
      (by decide) hpost, hpf,
      getKey_setKey_ne _ _ _ _ (hsuf "y" "m" (by decide)),
      getKey_setKey_ne _ _ _ _ (hsuf "y" "z" (by decide)),
      getKey_setKey_self]
  have hkz : getKey ((post.foldl (processField ops fs s.temp step s.node_count)
        (processField ops fs s.temp step s.node_count
          (List.foldl (processField ops fs s.temp step s.node_count)
            ⟨n0, [], [], []⟩ pre) f))).nodal (f ++ "z") = some dZ := by
    rw [foldl_preserves_other_keys ops fs s.temp step s.node_count post _ f "z" hf
      (by decide) hpost, hpf,
      getKey_setKey_ne _ _ _ _ (hsuf "z" "m" (by decide)),
      getKey_setKey_self]
  have hkm : getKey ((post.foldl (processField ops fs s.temp step s.node_count)
        (processField ops fs s.temp step s.node_count
          (List.foldl (processField ops fs s.temp step s.node_count)
            ⟨n0, [], [], []⟩ pre) f))).nodal (f ++ "m") = some dM := by
    rw [foldl_preserves_other_keys ops fs s.temp step s.node_count post _ f "m" hf
      (by decide) hpost, hpf, getKey_setKey_self]
  refine ⟨_, dX, dY, dZ, dM, getKey_setKey_self _ _ _, hkx, hky, hkz, hkm, ?_⟩
  intro i hi
  have h1 : 3 * i < data.length := by omega
  have h2 : 3 * i + 1 < data.length := by omega
  have h3 : 3 * i + 2 < data.length := by omega
  refine ⟨?_, ?_, ?_, data[3 * i], data[3 * i + 1], data[3 * i + 2],
    List.getElem?_eq_getElem h1, List.getElem?_eq_getElem h2,
    List.getElem?_eq_getElem h3, ?_⟩
  · rw [mkDict_getKey s.node_count _ dX i hdX hi, everyThird_getElem?]
  · rw [mkDict_getKey s.node_count _ dY i hdY hi, everyThird_getElem?,
      List.getElem?_drop]
    congr 1
    omega
  · rw [mkDict_getKey s.node_count _ dZ i hdZ hi, everyThird_getElem?,
      List.getElem?_drop]
    congr 1
    omega
  · rw [mkDict_getKey s.node_count _ dM i hdM hi]
    apply zip3With_getElem?
    · rw [everyThird_getElem?]
      exact List.getElem?_eq_getElem h1
    · rw [everyThird_getElem?, List.getElem?_drop]
      rw [show 1 + 3 * i = 3 * i + 1 from by omega]
      exact List.getElem?_eq_getElem h2
    · rw [everyThird_getElem?, List.getElem?_drop]
      rw [show 2 + 3 * i = 3 * i + 2 from by omega]
      exact List.getElem?_eq_getElem h3

theorem extract_data_nodal_parsing_witness :
    ∃ res : StepResults ℤ, ∃ dX dY dZ dM : List (ℕ × ℤ),
      getKey (extract_data sampleOps sampleStruct (([] : List String) ++ "u" :: []) sampleFS).results
        "step_load" = some res ∧
      getKey res.nodal ("u" ++ "x") = some dX ∧
      getKey res.nodal ("u" ++ "y") = some dY ∧
      getKey res.nodal ("u" ++ "z") = some dZ ∧
      getKey res.nodal ("u" ++ "m") = some dM ∧
      ∀ i < sampleStruct.node_count,
        getKey dX i = ([(1 : ℤ), 2, 3])[3 * i]? ∧
        getKey dY i = ([(1 : ℤ), 2, 3])[3 * i + 1]? ∧
        getKey dZ i = ([(1 : ℤ), 2, 3])[3 * i + 2]? ∧
        ∃ x y z, ([(1 : ℤ), 2, 3])[3 * i]? = some x ∧
          ([(1 : ℤ), 2, 3])[3 * i + 1]? = some y ∧
          ([(1 : ℤ), 2, 3])[3 * i + 2]? = some z ∧
          getKey dM i = some (sampleOps.sq (x * x + y * y + z * z)) :=
  extract_data_nodal_parsing sampleOps sampleStruct sampleFS [] [] "u" "step_load"
    ["header", "0.0 1 2 3"] "0.0 1 2 3" [1, 2, 3]
    (by decide) (by decide) (by decide) (by decide) (by decide) (by decide)
    (by decide) (by decide)

/-! ### Claim theorems: `rhino.py` sets -/

theorem no_none_append (acc : List (Option ℕ)) (e : ℕ) (hacc : none ∉ acc) :
    none ∉ acc ++ [some e] := by
  intro hm
  rcases List.mem_append.mp hm with h1 | h1
  · exact hacc h1
  · simp at h1

theorem elemSetFaces_no_none (s : RStructure P) (verts : List P)
    (faces : List (ℕ × ℕ × ℕ × ℕ)) (acc acc' : List (Option ℕ))
    (hacc : none ∉ acc) (h : elemSetFaces s verts faces acc = some acc') :
    none ∉ acc' := by
  induction faces generalizing acc with
  | nil =>
    unfold elemSetFaces at h
    cases h
    exact hacc
  | cons face rest ih =>
    unfold elemSetFaces at h
    rcases hfn : faceNodes s verts face with _ | q
    · rw [hfn] at h
      cases h
    · obtain ⟨a, b, c, d⟩ := q
      rw [hfn] at h
      dsimp only at h
      rcases hce : check_element_exists s (if c = d then [a, b, c] else [a, b, c, d])
          with _ | e
      · rw [hce, if_pos rfl] at h
        exact ih acc hacc h
      · rw [hce, if_neg (by simp)] at h
        exact ih _ (no_none_append acc e hacc) h

theorem elemSetGuid_no_none (doc : CadDoc P) (s : RStructure P) (guid : ℕ)
    (acc acc' : List (Option ℕ))
    (hacc : none ∉ acc) (h : elemSetGuid doc s acc guid = some acc') :
    none ∉ acc' := by
  unfold elemSetGuid at h
  have hacc1 : none ∉ (if doc.isCurve guid then
      (let sp := check_node_exists s (doc.curveStart guid)
       let ep := check_node_exists s (doc.curveEnd guid)
       let element := check_element_exists s [sp, ep]
       if element = none then acc else acc ++ [element])
      else acc) := by
    by_cases hc : doc.isCurve guid
    · rw [if_pos hc]
      dsimp only
      rcases hce : check_element_exists s [check_node_exists s (doc.curveStart guid),
          check_node_exists s (doc.curveEnd guid)] with _ | e
      · rw [if_pos rfl]
        exact hacc
      · rw [if_neg (by simp)]
        exact no_none_append acc e hacc
    · rw [if_neg hc]
      exact hacc
  by_cases hm : doc.isMesh guid
  · rw [if_pos hm] at h
    by_cases hsol : containsSolid (doc.objectName guid)
    · rw [if_pos hsol] at h
      dsimp only at h
      rcases hce : check_element_exists s ((doc.meshVertices guid).map
          (check_node_exists s)) with _ | e <;> rw [hce] at h
      · rw [if_pos rfl] at h
        cases h
        exact hacc1
      · rw [if_neg (by simp)] at h
        cases h
        exact no_none_append _ e hacc1
    · rw [if_neg hsol] at h
      exact elemSetFaces_no_none s (doc.meshVertices guid) (doc.meshFaces guid) _ acc'
        hacc1 h
  · rw [if_neg hm] at h
    cases h
    exact hacc1

theorem elemSetGuids_no_none (doc : CadDoc P) (s : RStructure P) (guids : List ℕ)
    (acc acc' : List (Option ℕ))
    (hacc : none ∉ acc) (h : elemSetGuids doc s guids acc = some acc') :
    none ∉ acc' := by
  induction guids generalizing acc with
  | nil =>
    unfold elemSetGuids at h
    cases h
    exact hacc
  | cons g rest ih =>
    unfold elemSetGuids at h
    rcases hg : elemSetGuid doc s acc g with _ | acc1 <;> rw [hg] at h
    · cases h
    · exact ih acc1 (elemSetGuid_no_none doc s g acc acc1 hacc hg) h

/-- Claim C10: the selections that `add_element_set` and `add_node_set`
hand to `structure.add_set` never contain `None`: a guid whose
geometry matches no existing node, and a guid whose nodes form no
existing element, is skipped rather than recorded. -/
theorem add_sets_selection_no_none (doc : CadDoc P) (s : RStructure P)
    (guids : List ℕ) (name : String) (ex : Bool) :
    (∀ s', add_element_set doc s guids name ex = some s' →
      ∃ r, getKey s'.rsets name = some r ∧ r.stype = "element" ∧
        none ∉ r.selection) ∧
    (∃ r, getKey (add_node_set doc s guids name ex).rsets name = some r ∧
      r.stype = "node" ∧ none ∉ r.selection) := by
  constructor
  · intro s' h
    unfold add_element_set at h
    rcases hg : elemSetGuids doc s guids [] with _ | sel <;> rw [hg] at h
    · cases h
    · cases h
      refine ⟨⟨"element", sel, ex⟩, ?_, rfl, ?_⟩
      · exact getKey_setKey_self _ _ _
      · exact elemSetGuids_no_none doc s guids [] sel (by simp) hg
  · refine ⟨⟨"node", _, ex⟩, getKey_setKey_self _ _ _, rfl, ?_⟩
    have hgen : ∀ (gs : List ℕ) (acc : List (Option ℕ)), none ∉ acc →
        none ∉ gs.foldl (fun acc g =>
          let node := check_node_exists s (doc.pointCoordinates g)
          if node = none then acc else acc ++ [node]) acc := by
      intro gs
      induction gs with
      | nil => intro acc hacc; exact hacc
      | cons g rest ih =>
        intro acc hacc
        rw [List.foldl_cons]
        apply ih
        dsimp only
        rcases hn : check_node_exists s (doc.pointCoordinates g) with _ | k
        · rw [if_pos rfl]
          exact hacc
        · rw [if_neg (by simp)]
          exact no_none_append acc k hacc
    exact hgen guids [] (by simp)

theorem add_sets_selection_no_none_witness :
    (∃ r, getKey (add_set sampleRS "se" "element" [] false).rsets "se" = some r ∧
      r.stype = "element" ∧ none ∉ r.selection) ∧
    (∃ r, getKey (add_node_set sampleDoc sampleRS [3] "sn" false).rsets "sn" = some r ∧
      r.stype = "node" ∧ none ∉ r.selection) :=
  ⟨(add_sets_selection_no_none sampleDoc sampleRS [] "se" false).1 _ rfl,
   (add_sets_selection_no_none sampleDoc sampleRS [3] "sn" false).2⟩

omit [DecidableEq P] in

theorem grows_refl (s : RStructure P) : grows s s :=
  ⟨⟨[], by simp⟩, fun _ he => he⟩

omit [DecidableEq P] in

theorem grows_trans (s1 s2 s3 : RStructure P) (h1 : grows s1 s2) (h2 : grows s2 s3) :
    grows s1 s3 := by
  obtain ⟨⟨t1, ht1⟩, he1⟩ := h1
  obtain ⟨⟨t2, ht2⟩, he2⟩ := h2
  exact ⟨⟨t1 ++ t2, by rw [ht2, ht1, List.append_assoc]⟩, fun e he => he2 e (he1 e he)⟩

theorem idxOf?_append_some [DecidableEq α] (l t : List α) (p : α) (k : ℕ)
    (h : idxOf? l p = some k) : idxOf? (l ++ t) p = some k := by
  induction l generalizing k with
  | nil => cases h
  | cons q rest ih =>
    rw [List.cons_append]
    simp only [idxOf?] at h ⊢
    by_cases hq : q = p
    · rw [if_pos hq] at h ⊢
      exact h
    · rw [if_neg hq] at h ⊢
      rcases hr : idxOf? rest p with _ | k' <;> rw [hr] at h
      · cases h
      · cases h
        rw [ih k' hr]
        rfl

theorem idxOf?_append_none [DecidableEq α] (l : List α) (p : α)
    (h : idxOf? l p = none) : idxOf? (l ++ [p]) p = some l.length := by
  induction l with
  | nil => simp [idxOf?]
  | cons q rest ih =>
    rw [List.cons_append]
    simp only [idxOf?] at h ⊢
    by_cases hq : q = p
    · rw [if_pos hq] at h
      cases h
    · rw [if_neg hq] at h ⊢
      rcases hr : idxOf? rest p with _ | k <;> rw [hr] at h
      · rw [ih hr]
        simp
      · cases h

theorem check_stable (s s' : RStructure P) (p : P) (k : ℕ)
    (hg : grows s s') (h : check_node_exists s p = some k) :
    check_node_exists s' p = some k := by
  obtain ⟨⟨t, ht⟩, _⟩ := hg
  unfold check_node_exists at h ⊢
  rw [ht]
  exact idxOf?_append_some s.rnodes t p k h

theorem add_node_grows (s : RStructure P) (p : P) : grows s (add_node s p).1 := by
  unfold add_node
  rcases h : check_node_exists s p with _ | k
  · exact ⟨⟨[p], rfl⟩, fun _ he => he⟩
  · exact ⟨⟨[], by simp⟩, fun _ he => he⟩

theorem add_node_check (s : RStructure P) (p : P) :
    check_node_exists (add_node s p).1 p = some (add_node s p).2 := by
  unfold add_node
  rcases h : check_node_exists s p with _ | k
  · dsimp only
    unfold check_node_exists at h ⊢
    exact idxOf?_append_none s.rnodes p h
  · dsimp only
    exact h

omit [DecidableEq P] in

theorem add_element_grows (s : RStructure P) (ns : List (Option ℕ)) (t : String) :
    grows s (add_element s ns t).1 :=
  ⟨⟨[], by simp [add_element]⟩, fun _ he => List.mem_append_left _ he⟩

omit [DecidableEq P] in

theorem add_element_mem (s : RStructure P) (ns : List (Option ℕ)) (t : String) :
    (⟨ns, t⟩ : RElement) ∈ (add_element s ns t).1.relements := by
  simp [add_element]

theorem add_element_check (s : RStructure P) (ns : List (Option ℕ)) (t : String)
    (p : P) : check_node_exists (add_element s ns t).1 p = check_node_exists s p := rfl

theorem lineProp_mono (doc : CadDoc P) (guid : ℕ) (l : String) (s s' : RStructure P)
    (hg : grows s s') (hp : lineProp doc guid l s) : lineProp doc guid l s' := by
  obtain ⟨a, b, ha, hb, he⟩ := hp
  exact ⟨a, b, check_stable s s' _ a hg ha, check_stable s s' _ b hg hb, hg.2 _ he⟩

theorem faceProp_mono (verts : List P) (mt : String) (face : ℕ × ℕ × ℕ × ℕ)
    (s s' : RStructure P) (hg : grows s s') (hp : faceProp verts mt face s) :
    faceProp verts mt face s' := by
  obtain ⟨pa, pb, pc, pd, h1, h2, h3, h4, ka, kb, kc, kd, g1, g2, g3, g4, he3, he4⟩ := hp
  exact ⟨pa, pb, pc, pd, h1, h2, h3, h4, ka, kb, kc, kd,
    check_stable s s' _ ka hg g1, check_stable s s' _ kb hg g2,
    check_stable s s' _ kc hg g3, check_stable s s' _ kd hg g4,
    fun h => hg.2 _ (he3 h), fun h => hg.2 _ (he4 h)⟩

theorem lineBranch_spec (doc : CadDoc P) (s : RStructure P) (guid : ℕ) (l : String) :
    grows s (lineBranch doc s guid l) ∧ lineProp doc guid l (lineBranch doc s guid l) := by
  unfold lineBranch
  have g1 := add_node_grows s (doc.curveStart guid)
  have g2 := add_node_grows (add_node s (doc.curveStart guid)).1 (doc.curveEnd guid)
  have g3 := add_element_grows
    (add_node (add_node s (doc.curveStart guid)).1 (doc.curveEnd guid)).1
    [some (add_node s (doc.curveStart guid)).2,
     some (add_node (add_node s (doc.curveStart guid)).1 (doc.curveEnd guid)).2] l
  refine ⟨grows_trans _ _ _ g1 (grows_trans _ _ _ g2 g3), ?_⟩
  refine ⟨(add_node s (doc.curveStart guid)).2,
    (add_node (add_node s (doc.curveStart guid)).1 (doc.curveEnd guid)).2, ?_, ?_, ?_⟩
  · rw [add_element_check]
    exact check_stable _ _ _ _ g2 (add_node_check s (doc.curveStart guid))
  · rw [add_element_check]
    exact add_node_check (add_node s (doc.curveStart guid)).1 (doc.curveEnd guid)
  · exact add_element_mem _ _ _

theorem addNodesList_grows (s : RStructure P) (verts : List P) :
    grows s (addNodesList s verts).1 := by
  induction verts generalizing s with
  | nil => exact grows_refl s
  | cons p rest ih =>
    unfold addNodesList
    exact grows_trans _ _ _ (add_node_grows s p) (ih (add_node s p).1)

theorem addNodesList_check (s : RStructure P) (verts : List P) (p : P) (hp : p ∈ verts) :
    (check_node_exists (addNodesList s verts).1 p).isSome = true := by
  induction verts generalizing s with
  | nil => cases hp
  | cons q rest ih =>
    unfold addNodesList
    rcases List.mem_cons.mp hp with rfl | hr
    · dsimp only
      rcases hc : check_node_exists (addNodesList (add_node s p).1 rest).1 p with _ | k
      · have := check_stable _ _ p (add_node s p).2 (addNodesList_grows (add_node s p).1 rest)
          (add_node_check s p)
        rw [this] at hc
        cases hc
      · simp
    · exact ih (add_node s q).1 hr

theorem faceNodes_inv (s : RStructure P) (verts : List P) (face : ℕ × ℕ × ℕ × ℕ)
    (a b c d : Option ℕ) (h : faceNodes s verts face = some (a, b, c, d)) :
    ∃ pa pb pc pd, verts[face.1]? = some pa ∧ verts[face.2.1]? = some pb ∧
      verts[face.2.2.1]? = some pc ∧ verts[face.2.2.2]? = some pd ∧
      a = check_node_exists s pa ∧ b = check_node_exists s pb ∧
      c = check_node_exists s pc ∧ d = check_node_exists s pd := by
  unfold faceNodes at h
  rcases h1 : verts[face.1]? with _ | pa <;> rw [h1] at h
  · cases h
  rcases h2 : verts[face.2.1]? with _ | pb <;> rw [h2] at h
  · cases h
  rcases h3 : verts[face.2.2.1]? with _ | pc <;> rw [h3] at h
  · cases h
  rcases h4 : verts[face.2.2.2]? with _ | pd <;> rw [h4] at h
  · cases h
  obtain ⟨ha, hb, hc, hd⟩ : check_node_exists s pa = a ∧ check_node_exists s pb = b ∧
      check_node_exists s pc = c ∧ check_node_exists s pd = d := by
    simpa using h
  exact ⟨pa, pb, pc, pd, rfl, rfl, rfl, rfl, ha.symm, hb.symm, hc.symm, hd.symm⟩

theorem meshFacesAdd_grows (verts : List P) (mt : String)
    (faces : List (ℕ × ℕ × ℕ × ℕ)) (s s' : RStructure P)
    (h : meshFacesAdd verts mt faces s = some s') : grows s s' := by
  induction faces generalizing s with
  | nil =>
    unfold meshFacesAdd at h
    cases h
    exact grows_refl _
  | cons face rest ih =>
    unfold meshFacesAdd at h
    rcases hfn : faceNodes s verts face with _ | q <;> rw [hfn] at h
    · cases h
    · obtain ⟨a, b, c, d⟩ := q
      dsimp only at h
      exact grows_trans _ _ _ (add_element_grows s _ mt) (ih _ h)

theorem meshFacesAdd_spec (verts : List P) (mt : String)
    (faces : List (ℕ × ℕ × ℕ × ℕ)) (s s' : RStructure P)
    (hall : ∀ p ∈ verts, (check_node_exists s p).isSome = true)
    (h : meshFacesAdd verts mt faces s = some s') :
    ∀ face ∈ faces, faceProp verts mt face s' := by
  induction faces generalizing s with
  | nil => intro face hf; cases hf
  | cons face rest ih =>
    unfold meshFacesAdd at h
    rcases hfn : faceNodes s verts face with _ | q <;> rw [hfn] at h
    · cases h
    obtain ⟨a, b, c, d⟩ := q
    dsimp only at h
    have hall1 : ∀ p ∈ verts,
        (check_node_exists (add_element s (if d = c then [a, b, c] else [a, b, c, d])
          mt).1 p).isSome = true := by
      intro p hp
      rw [add_element_check]
      exact hall p hp
    intro fc hfc
    rcases List.mem_cons.mp hfc with rfl | hr
    · -- the face just processed: establish the property in the next state
      obtain ⟨pa, pb, pc, pd, h1, h2, h3, h4, ha, hb, hc, hd⟩ :=
        faceNodes_inv s verts fc a b c d hfn
      obtain ⟨ka, hka⟩ := Option.isSome_iff_exists.mp
        (show a.isSome = true from by rw [ha]; exact hall pa (List.getElem?_mem h1))
      obtain ⟨kb, hkb⟩ := Option.isSome_iff_exists.mp
        (show b.isSome = true from by rw [hb]; exact hall pb (List.getElem?_mem h2))
      obtain ⟨kc, hkc⟩ := Option.isSome_iff_exists.mp
        (show c.isSome = true from by rw [hc]; exact hall pc (List.getElem?_mem h3))
      obtain ⟨kd, hkd⟩ := Option.isSome_iff_exists.mp
        (show d.isSome = true from by rw [hd]; exact hall pd (List.getElem?_mem h4))
      have hg : grows (add_element s (if d = c then [a, b, c] else [a, b, c, d]) mt).1 s' :=
        meshFacesAdd_grows verts mt rest _ s' h
      have cha : check_node_exists s pa = some ka := ha.symm.trans hka
      have chb : check_node_exists s pb = some kb := hb.symm.trans hkb
      have chc : check_node_exists s pc = some kc := hc.symm.trans hkc
      have chd : check_node_exists s pd = some kd := hd.symm.trans hkd
      refine ⟨pa, pb, pc, pd, h1, h2, h3, h4, ka, kb, kc, kd,
        check_stable _ _ _ _ hg (by rw [add_element_check]; exact cha),
        check_stable _ _ _ _ hg (by rw [add_element_check]; exact chb),
        check_stable _ _ _ _ hg (by rw [add_element_check]; exact chc),
        check_stable _ _ _ _ hg (by rw [add_element_check]; exact chd), ?_, ?_⟩
      · intro hkdc
        have hdc : d = c := by rw [hkd, hkc, hkdc]
        have hmem := add_element_mem s (if d = c then [a, b, c] else [a, b, c, d]) mt
        rw [if_pos hdc] at hmem
        have hval : ([a, b, c] : List (Option ℕ)) = [some ka, some kb, some kc] := by
          rw [hka, hkb, hkc]
        exact hg.2 _ (by rw [← hval, if_pos hdc]; exact hmem)
      · intro hkdc
        have hdc : ¬ d = c := by
          rw [hkd, hkc]
          simp [hkdc]
        have hmem := add_element_mem s (if d = c then [a, b, c] else [a, b, c, d]) mt
        rw [if_neg hdc] at hmem
        have hval : ([a, b, c, d] : List (Option ℕ)) =
            [some ka, some kb, some kc, some kd] := by
          rw [hka, hkb, hkc, hkd]
        exact hg.2 _ (by rw [← hval, if_neg hdc]; exact hmem)
    · exact ih _ hall1 h fc hr

theorem meshBranch_grows (doc : CadDoc P) (s : RStructure P) (guid : ℕ) (mt : String)
    (s' : RStructure P) (h : meshBranch doc s guid mt = some s') : grows s s' := by
  unfold meshBranch at h
  by_cases hsol : mt ∈ solidTypes
  · rw [if_pos hsol] at h
    cases h
    exact grows_trans _ _ _ (addNodesList_grows s (doc.meshVertices guid))
      (add_element_grows _ _ _)
  · rw [if_neg hsol] at h
    exact grows_trans _ _ _ (addNodesList_grows s (doc.meshVertices guid))
      (meshFacesAdd_grows _ _ _ _ _ h)

theorem meshBranch_spec (doc : CadDoc P) (s : RStructure P) (guid : ℕ) (mt : String)
    (s' : RStructure P) (hns : mt ∉ solidTypes)
    (h : meshBranch doc s guid mt = some s') :
    ∀ face ∈ doc.meshFaces guid, faceProp (doc.meshVertices guid) mt face s' := by
  unfold meshBranch at h
  rw [if_neg hns] at h
  exact meshFacesAdd_spec (doc.meshVertices guid) mt (doc.meshFaces guid) _ s'
    (fun p hp => addNodesList_check s (doc.meshVertices guid) p hp) h

theorem procGuid_grows (doc : CadDoc P) (lt mt : Option String) (s : RStructure P)
    (guid : ℕ) (s' : RStructure P) (h : procGuid doc lt mt s guid = some s') :
    grows s s' := by
  unfold procGuid at h
  by_cases h1 : truthy lt && doc.isCurve guid
  · rw [if_pos h1] at h
    cases h
    exact (lineBranch_spec doc s guid (lt.getD "")).1
  · rw [if_neg h1] at h
    by_cases h2 : truthy mt && doc.isMesh guid
    · rw [if_pos h2] at h
      exact meshBranch_grows doc s guid (mt.getD "") s' h
    · rw [if_neg h2] at h
      cases h
      exact grows_refl _

theorem procGuid_establishes (doc : CadDoc P) (lt mt : Option String)
    (s : RStructure P) (guid : ℕ) (s' : RStructure P)
    (h : procGuid doc lt mt s guid = some s') :
    (∀ l, lt = some l → l ≠ "" → doc.isCurve guid = true → lineProp doc guid l s') ∧
    (∀ m, mt = some m → m ≠ "" → m ∉ solidTypes → doc.isMesh guid = true →
      (truthy lt = false ∨ doc.isCurve guid = false) →
      ∀ face ∈ doc.meshFaces guid, faceProp (doc.meshVertices guid) m face s') := by
  unfold procGuid at h
  by_cases h1 : truthy lt && doc.isCurve guid
  · rw [if_pos h1] at h
    cases h
    constructor
    · intro l hl hne hc
      have : lt.getD "" = l := by rw [hl]; rfl
      rw [← this]
      exact (lineBranch_spec doc s guid (lt.getD "")).2
    · intro m hm hne hns hmesh hdisj
      exfalso
      rcases hdisj with hd | hd
      · rw [Bool.and_eq_true] at h1
        rw [h1.1] at hd
        cases hd
      · rw [Bool.and_eq_true] at h1
        rw [h1.2] at hd
        cases hd
  · rw [if_neg h1] at h
    by_cases h2 : truthy mt && doc.isMesh guid
    · rw [if_pos h2] at h
      constructor
      · intro l hl hne hc
        exfalso
        apply h1
        rw [Bool.and_eq_true]
        refine ⟨?_, hc⟩
        rw [hl]
        simpa [truthy] using hne
      · intro m hm hne hns hmesh hdisj
        have : mt.getD "" = m := by rw [hm]; rfl
        rw [← this]
        exact meshBranch_spec doc s guid (mt.getD "") s' (this ▸ hns) h
    · rw [if_neg h2] at h
      cases h
      constructor
      · intro l hl hne hc
        exfalso
        apply h1
        rw [Bool.and_eq_true]
        refine ⟨?_, hc⟩
        rw [hl]
        simpa [truthy] using hne
      · intro m hm hne hns hmesh hdisj
        exfalso
        apply h2
        rw [Bool.and_eq_true]
        refine ⟨?_, hmesh⟩
        rw [hm]
        simpa [truthy] using hne

theorem procGuids_grows (doc : CadDoc P) (lt mt : Option String) (guids : List ℕ)
    (s s' : RStructure P) (h : procGuids doc lt mt guids s = some s') : grows s s' := by
  induction guids generalizing s with
  | nil =>
    unfold procGuids at h
    cases h
    exact grows_refl _
  | cons g rest ih =>
    unfold procGuids at h
    rcases hp : procGuid doc lt mt s g with _ | s1 <;> rw [hp] at h
    · cases h
    · exact grows_trans _ _ _ (procGuid_grows doc lt mt s g s1 hp) (ih s1 h)

theorem procGuids_establishes (doc : CadDoc P) (lt mt : Option String)
    (guids : List ℕ) (s s' : RStructure P)
    (h : procGuids doc lt mt guids s = some s') (guid : ℕ) (hg : guid ∈ guids) :
    (∀ l, lt = some l → l ≠ "" → doc.isCurve guid = true → lineProp doc guid l s') ∧
    (∀ m, mt = some m → m ≠ "" → m ∉ solidTypes → doc.isMesh guid = true →
      (truthy lt = false ∨ doc.isCurve guid = false) →
      ∀ face ∈ doc.meshFaces guid, faceProp (doc.meshVertices guid) m face s') := by
  induction guids generalizing s with
  | nil => cases hg
  | cons g rest ih =>
    unfold procGuids at h
    rcases hp : procGuid doc lt mt s g with _ | s1 <;> rw [hp] at h
    · cases h
    rcases List.mem_cons.mp hg with rfl | hr
    · have hE := procGuid_establishes doc lt mt s guid s1 hp
      have hgrow := procGuids_grows doc lt mt rest s1 s' h
      exact ⟨fun l hl hne hc => lineProp_mono doc guid l s1 s' hgrow (hE.1 l hl hne hc),
             fun m hm hne hns hmesh hdisj face hface =>
               faceProp_mono (doc.meshVertices guid) m face s1 s' hgrow
                 (hE.2 m hm hne hns hmesh hdisj face hface)⟩
    · exact ih s1 h hr

theorem add_layers_grows (doc : CadDoc P) (layers : List String) (lt mt : Option String)
    (s s' : RStructure P)
    (h : add_nodes_elements_from_layers doc s layers lt mt = some s') : grows s s' := by
  induction layers generalizing s with
  | nil =>
    unfold add_nodes_elements_from_layers at h
    cases h
    exact grows_refl _
  | cons ly rest ih =>
    unfold add_nodes_elements_from_layers at h
    rcases hp : procGuids doc lt mt (doc.objectsByLayer ly) s with _ | s1 <;> rw [hp] at h
    · cases h
    · exact grows_trans _ _ _ (procGuids_grows doc lt mt (doc.objectsByLayer ly) s s1 hp)
        (ih s1 h)

/-- Claim C7: with a truthy `line_type`, every curve guid on a
processed layer contributes its two endpoints as nodes and one
`line_type` element on their keys; with a truthy non-solid `mesh_type`,
every face of a mesh guid (not consumed by the curve branch) is added
as a 3-node element when its last two vertices map to the same node
(the duplicate is dropped) and with all four face nodes otherwise. -/
theorem add_nodes_elements_from_layers_spec (doc : CadDoc P) (s : RStructure P)
    (layers : List String) (lt mt : Option String) (s' : RStructure P)
    (hrun : add_nodes_elements_from_layers doc s layers lt mt = some s')
    (layer : String) (hlayer : layer ∈ layers) (guid : ℕ)
    (hguid : guid ∈ doc.objectsByLayer layer) :
    (∀ l, lt = some l → l ≠ "" → doc.isCurve guid = true → lineProp doc guid l s') ∧
    (∀ m, mt = some m → m ≠ "" → m ∉ solidTypes → doc.isMesh guid = true →
      (truthy lt = false ∨ doc.isCurve guid = false) →
      ∀ face ∈ doc.meshFaces guid, faceProp (doc.meshVertices guid) m face s') := by
  induction layers generalizing s with
  | nil => cases hlayer
  | cons ly rest ih =>
    unfold add_nodes_elements_from_layers at hrun
    rcases hp : procGuids doc lt mt (doc.objectsByLayer ly) s with _ | s1 <;>
      rw [hp] at hrun
    · cases hrun
    rcases List.mem_cons.mp hlayer with rfl | hr
    · have hE := procGuids_establishes doc lt mt (doc.objectsByLayer layer) s s1 hp
        guid hguid
      have hgrow := add_layers_grows doc rest lt mt s1 s' hrun
      exact ⟨fun l hl hne hc => lineProp_mono doc guid l s1 s' hgrow (hE.1 l hl hne hc),
             fun m hm hne hns hmesh hdisj face hface =>
               faceProp_mono (doc.meshVertices guid) m face s1 s' hgrow
                 (hE.2 m hm hne hns hmesh hdisj face hface)⟩
    · exact ih s1 hrun hr

theorem add_nodes_elements_from_layers_spec_witness :
    lineProp sampleDoc 1 "BeamElement" sampleRun ∧
    ∀ face ∈ sampleDoc.meshFaces 2,
      faceProp (sampleDoc.meshVertices 2) "ShellElement" face sampleRun := by
  constructor
  · exact (add_nodes_elements_from_layers_spec sampleDoc ⟨[], [], []⟩ ["L"]
      (some "BeamElement") (some "ShellElement") sampleRun rfl "L" (by decide)
      1 (by decide)).1 "BeamElement" rfl (by decide) (by decide)
  · exact (add_nodes_elements_from_layers_spec sampleDoc ⟨[], [], []⟩ ["L"]
      (some "BeamElement") (some "ShellElement") sampleRun rfl "L" (by decide)
      2 (by decide)).2 "ShellElement" rfl (by decide) (by decide) (by decide)
      (Or.inr (by decide))
